import Mathlib

/-!
Verification development for the wnreader EPUB ingestion core
(`src/lib/html-to-text.ts`, main `parseEpub` document, plus the import
route `src/app/api/import/route.ts`).

The TypeScript source is shallowly embedded: JS strings become Lean
`String`s (operations are modelled at the character-list level; all the
strings exercised here are ASCII/BMP so one JS UTF-16 unit corresponds to
one `Char`), the cheerio DOM becomes an explicit tree type, the JSZip
archive becomes an association list from entry name to entry, and the
XML parser (`fast-xml-parser`) is modelled by attaching the parsed shape
of an entry to the entry itself (none of the claims concern XML parsing
itself).  Fallible/potentially divergent code returns `Option`.
-/

deriving instance DecidableEq for Except

namespace WNReader

/-! ## JS string primitives -/

/-- JS `String.prototype.toLowerCase` (ASCII range, which is all the
source ever lowercases: media types, titles, linear flags). -/
def lowerStr (s : String) : String := String.mk (s.data.map Char.toLower)

/-- JS `s.startsWith(p)`. -/
def jsStartsWith (s p : String) : Bool := p.data.isPrefixOf s.data

/-- JS `s.endsWith(p)`. -/
def jsEndsWith (s p : String) : Bool := p.data.isSuffixOf s.data

/-- Substring occurrence on character lists (used for JS `includes`). -/
def listContains : List Char → List Char → Bool
  | l, sub =>
    if sub.isPrefixOf l then true
    else match l with
      | [] => false
      | _ :: t => listContains t sub

/-- JS `s.includes(sub)`. -/
def jsIncludes (s sub : String) : Bool := listContains s.data sub.data

/-- JS `s.substring(1)` (drop the first UTF-16 unit; all inputs here are BMP). -/
def dropFirstChar (s : String) : String := String.mk s.data.tail

/-- First character test (JS `s.startsWith("/")` for a one-character prefix,
and the regex `/^\//` test). -/
def headIs (c : Char) (s : String) : Bool :=
  match s.data with
  | [] => false
  | d :: _ => d == c

/-- JS `s.trim()` (whitespace at both ends removed). -/
def jsTrim (s : String) : String :=
  String.mk ((s.data.dropWhile Char.isWhitespace).reverse.dropWhile Char.isWhitespace).reverse

mutual

/-- Worker for `collapseWs` (outside a whitespace run). -/
def collapseWsGo : List Char → List Char
  | [] => []
  | c :: cs =>
    if c.isWhitespace then ' ' :: collapseWsSkip cs
    else c :: collapseWsGo cs

/-- Worker for `collapseWs` (inside a whitespace run, already emitted). -/
def collapseWsSkip : List Char → List Char
  | [] => []
  | c :: cs =>
    if c.isWhitespace then collapseWsSkip cs
    else c :: collapseWsGo cs

end

/-- JS `s.replace(/\s+/g, " ")`: collapse every whitespace run to one space. -/
def collapseWs (s : String) : String := String.mk (collapseWsGo s.data)

/-- JS `s.split(sep)` for a single-character separator (keeps empty pieces,
exactly like `"a//b".split("/") = ["a","","b"]`). -/
def splitCharAux (sep : Char) : List Char → List Char → List String
  | [], acc => [String.mk acc.reverse]
  | c :: cs, acc =>
    if c == sep then String.mk acc.reverse :: splitCharAux sep cs []
    else splitCharAux sep cs (c :: acc)

def splitChar (sep : Char) (s : String) : List String := splitCharAux sep s.data []

/-- JS `parts.join("/")`. -/
def joinSlash : List String → String
  | [] => ""
  | [x] => x
  | x :: xs => x ++ "/" ++ joinSlash xs

/-- JS `s.replace(/\\/g, "/")`. -/
def backslashToSlash (s : String) : String :=
  String.mk (s.data.map (fun c => if c == '\\' then '/' else c))

/-- Replace the first occurrence of `pat` in `s` by `rep`
(JS `String.prototype.replace` with a plain-string pattern). -/
def replaceFirst (s pat rep : String) : String :=
  String.mk (go s.data)
where
  go : List Char → List Char
    | [] => []
    | l@(c :: cs) =>
      if pat.data.isPrefixOf l then rep.data ++ l.drop pat.data.length
      else c :: go cs

/-! ## Path resolution (`resolveZipPath` and the `path.posix` helpers) -/

/-- Segment normalization performed by Node's `path.posix.join`:
`.`/empty segments dropped, `..` pops unless the stack is empty or already
ends in `..` (relative paths keep leading `..` runs).  Leading-slash and
trailing-slash preservation of the real `join` are immaterial here because
`resolveZipPath` re-splits the joined string and filters empty segments. -/
def posixJoinParts (parts : List String) : List String :=
  parts.foldl step []
where
  step (acc : List String) (p : String) : List String :=
    if p = "" || p = "." then acc
    else if p = ".." then
      match acc.getLast? with
      | some q => if q = ".." then acc ++ [p] else acc.dropLast
      | none => acc ++ [p]
    else acc ++ [p]

/-- Node `path.posix.join(a, b)` (for the relative, forward-slash paths
this code feeds it). -/
def posixJoin (a b : String) : String :=
  let parts := posixJoinParts (splitChar '/' (a ++ "/" ++ b))
  if parts = [] then "." else joinSlash parts

/-- Node `path.posix.dirname` for relative forward-slash paths. -/
def posixDirname (p : String) : String :=
  let parts := splitChar '/' p
  match parts.dropLast with
  | [] => "."
  | l => if l = [""] then "/" else joinSlash l

/-- Node `path.extname` (suffix from the last `.` of the last segment). -/
def posixExtname (p : String) : String :=
  let base := (splitChar '/' p).getLast!
  let idxs := (List.range base.data.length).filter (fun i => base.data.get! i == '.')
  match idxs.getLast? with
  | some i => if i = 0 then "" else String.mk (base.data.drop i)
  | none => ""

/-- The manual `..`-stack loop of `resolveZipPath` (`resolved.pop()` on
`..`, push otherwise). -/
def resolveParts (parts : List String) : List String :=
  parts.foldl (fun acc p => if p = ".." then acc.dropLast else acc ++ [p]) []

/-- Segment list computed by the join branch of `resolveZipPath`. -/
def resolveZipParts (baseDir normalized : String) : List String :=
  resolveParts ((splitChar '/' (backslashToSlash (posixJoin baseDir normalized))).filter
    (fun p => p ≠ "." && p ≠ ""))

/-- `resolveZipPath` from `src/lib/html-to-text.ts` (lines 204-232). -/
def resolveZipPath (baseDir href : String) : String :=
  let normalized := backslashToSlash href
  if baseDir = "" || baseDir = "." then normalized
  else if headIs '/' normalized then dropFirstChar normalized
  else joinSlash (resolveZipParts baseDir normalized)

/-! ## Lemmas about the path resolver -/

theorem strDataAppend (a b : String) : (a ++ b).data = a.data ++ b.data := rfl

theorem strNeEmpty_iff (s : String) : s ≠ "" ↔ s.data ≠ [] := by
  constructor
  · intro h h'
    exact h (String.ext h')
  · intro h h'
    exact h (by rw [h'])

theorem splitCharAux_no_sep (sep : Char) :
    ∀ (l acc : List Char), (∀ c ∈ acc, c ≠ sep) →
      ∀ p ∈ splitCharAux sep l acc, ∀ c ∈ p.data, c ≠ sep := by
  intro l
  induction l with
  | nil =>
    intro acc hacc p hp c hc
    simp only [splitCharAux, List.mem_singleton] at hp
    subst hp
    simp only [List.mem_reverse] at hc
    exact hacc c hc
  | cons d ds ih =>
    intro acc hacc p hp c hc
    simp only [splitCharAux] at hp
    by_cases hd : d = sep
    · simp only [hd, beq_self_eq_true, if_pos] at hp
      rcases List.mem_cons.mp hp with h | h
      · subst h
        simp only [List.mem_reverse] at hc
        exact hacc c hc
      · exact ih [] (by simp) p h c hc
    · rw [if_neg (by simpa using hd)] at hp
      refine ih (d :: acc) ?_ p hp c hc
      intro e he
      rcases List.mem_cons.mp he with h | h
      · simpa [h] using hd
      · exact hacc e h

theorem splitChar_no_sep (sep : Char) (s : String) :
    ∀ p ∈ splitChar sep s, ∀ c ∈ p.data, c ≠ sep :=
  splitCharAux_no_sep sep s.data [] (by simp)

theorem resolveParts_mem :
    ∀ (parts acc : List String) (x : String),
      x ∈ parts.foldl (fun acc p => if p = ".." then acc.dropLast else acc ++ [p]) acc →
      x ∈ acc ∨ (x ∈ parts ∧ x ≠ "..") := by
  intro parts
  induction parts with
  | nil =>
    intro acc x hx
    exact Or.inl hx
  | cons p ps ih =>
    intro acc x hx
    simp only [List.foldl_cons] at hx
    rcases ih _ x hx with h | h
    · by_cases hp : p = ".."
      · rw [if_pos hp] at h
        exact Or.inl (List.dropLast_subset acc h)
      · rw [if_neg hp] at h
        rcases List.mem_append.mp h with h' | h'
        · exact Or.inl h'
        · simp only [List.mem_singleton] at h'
          subst h'
          exact Or.inr ⟨List.mem_cons_self _ _, hp⟩
    · exact Or.inr ⟨List.mem_cons_of_mem _ h.1, h.2⟩

theorem resolveZipParts_ok (baseDir normalized : String) :
    ∀ p ∈ resolveZipParts baseDir normalized,
      p ≠ ".." ∧ p ≠ "" ∧ ∀ c ∈ p.data, c ≠ '/' := by
  intro p hp
  unfold resolveZipParts resolveParts at hp
  rcases resolveParts_mem _ [] p hp with h | h
  · simp at h
  · rcases h with ⟨hmem, hdd⟩
    rcases List.mem_filter.mp hmem with ⟨hsplit, hcond⟩
    refine ⟨hdd, ?_, ?_⟩
    · intro h'
      subst h'
      simp at hcond
    · exact splitChar_no_sep '/' _ p hsplit

theorem joinSlash_no_leading_slash :
    ∀ l : List String, (∀ p ∈ l, p ≠ "" ∧ ∀ c ∈ p.data, c ≠ '/') →
      headIs '/' (joinSlash l) = false := by
  intro l
  induction l with
  | nil =>
    intro _
    rfl
  | cons x xs ih =>
    intro h
    rcases h x (List.mem_cons_self _ _) with ⟨hne, hnoslash⟩
    have hx : x.data ≠ [] := (strNeEmpty_iff x).mp hne
    cases xs with
    | nil =>
      show headIs '/' x = false
      unfold headIs
      cases hd : x.data with
      | nil => exact absurd hd hx
      | cons c cs =>
        have : c ≠ '/' := hnoslash c (by rw [hd]; exact List.mem_cons_self _ _)
        simpa using this
    | cons y ys =>
      show headIs '/' (x ++ "/" ++ joinSlash (y :: ys)) = false
      unfold headIs
      rw [strDataAppend, strDataAppend]
      cases hd : x.data with
      | nil => exact absurd hd hx
      | cons c cs =>
        have : c ≠ '/' := hnoslash c (by rw [hd]; exact List.mem_cons_self _ _)
        simpa using this

/-- C4, as amended: `resolveZipPath` behaves as the claim describes only
when `baseDir` is neither empty nor `"."`; for empty/`"."` base dirs the
backslash-normalized reference is returned verbatim (leading slash kept,
`..` kept), and in the archive-root branch the reference is returned with
just its first character removed (no dot-segment normalization).  In the
remaining join branch the claimed invariants do hold: segments are
normalized with `.` removed and `..` popping the stack (dropped on an
empty stack), and the result has no `..` segment and no leading slash. -/
theorem c4_resolveZipPath_amended (baseDir href : String) :
    ((baseDir = "" ∨ baseDir = ".") →
        resolveZipPath baseDir href = backslashToSlash href) ∧
    (¬(baseDir = "" ∨ baseDir = ".") →
        headIs '/' (backslashToSlash href) = true →
        resolveZipPath baseDir href = dropFirstChar (backslashToSlash href)) ∧
    (¬(baseDir = "" ∨ baseDir = ".") →
        headIs '/' (backslashToSlash href) = false →
        resolveZipPath baseDir href =
          joinSlash (resolveZipParts baseDir (backslashToSlash href)) ∧
        (∀ p ∈ resolveZipParts baseDir (backslashToSlash href),
            p ≠ ".." ∧ p ≠ "" ∧ ∀ c ∈ p.data, c ≠ '/') ∧
        headIs '/' (resolveZipPath baseDir href) = false) := by
  refine ⟨?_, ?_, ?_⟩
  · intro h
    unfold resolveZipPath
    rcases h with h | h <;> simp [h]
  · intro h habs
    unfold resolveZipPath
    rw [if_neg (by push_neg at h; simp [h.1, h.2]), if_pos habs]
  · intro h habs
    have hne : ¬(baseDir = "" ∨ baseDir = ".") := h
    push_neg at hne
    have heq : resolveZipPath baseDir href =
        joinSlash (resolveZipParts baseDir (backslashToSlash href)) := by
      unfold resolveZipPath
      rw [if_neg (by simp [hne.1, hne.2]), if_neg (by simp [habs])]
    refine ⟨heq, resolveZipParts_ok _ _, ?_⟩
    rw [heq]
    apply joinSlash_no_leading_slash
    intro p hp
    exact ⟨(resolveZipParts_ok _ _ p hp).2.1, (resolveZipParts_ok _ _ p hp).2.2⟩

/-- Witness for `c4_resolveZipPath_amended` at a concrete input. -/
theorem c4_resolveZipPath_amended_witness :
    resolveZipPath "OEBPS" "../img/a.png" = "img/a.png" ∧
    headIs '/' (resolveZipPath "OEBPS" "../img/a.png") = false := by
  refine ⟨by decide, ?_⟩
  exact ((c4_resolveZipPath_amended "OEBPS" "../img/a.png").2.2
    (by decide) (by decide)).2.2

/-- C4 counterexample: with an empty base directory (and with `"."`),
`resolveZipPath` returns the reference verbatim — the leading slash is
not stripped and `..` segments survive, contradicting the claim that
this holds "for every baseDir (including the empty string and `.`)". -/
theorem c4_counterexample :
    resolveZipPath "" "/foo" = "/foo" ∧
    "/foo" ≠ "foo" ∧
    headIs '/' (resolveZipPath "" "/foo") = true ∧
    resolveZipPath "." "../x" = "../x" := by
  refine ⟨by decide, by decide, by decide, by decide⟩

/-! ## Percent-encoding, UTF-8 and base64 -/

/-- UTF-8 encoding of one code point. -/
def utf8EncodeChar (c : Char) : List Nat :=
  let n := c.toNat
  if n < 0x80 then [n]
  else if n < 0x800 then [0xC0 + n / 64, 0x80 + n % 64]
  else if n < 0x10000 then
    [0xE0 + n / 4096, 0x80 + n / 64 % 64, 0x80 + n % 64]
  else
    [0xF0 + n / 262144, 0x80 + n / 4096 % 64, 0x80 + n / 64 % 64, 0x80 + n % 64]

def listFlat {α β : Type} (f : α → List β) (l : List α) : List β :=
  l.foldr (fun a r => f a ++ r) []

def hexVal (c : Char) : Option Nat :=
  let n := c.toNat
  if 48 ≤ n ∧ n ≤ 57 then some (n - 48)
  else if 65 ≤ n ∧ n ≤ 70 then some (n - 55)
  else if 97 ≤ n ∧ n ≤ 102 then some (n - 87)
  else none

def hexCharUpper (n : Nat) : Char :=
  if n < 10 then Char.ofNat ('0'.toNat + n) else Char.ofNat ('A'.toNat + n - 10)

/-- `%XY` escape (uppercase), as produced by `encodeURI`. -/
def pctHex (b : Nat) : List Char := ['%', hexCharUpper (b / 16), hexCharUpper (b % 16)]

/-- JS `decodeURIComponent`: percent-escapes are decoded byte-wise and the
byte groups must form complete, minimal UTF-8 sequences; malformed input
throws (`none` here).  Non-escape characters pass through unchanged. -/
def decURIChars : List Char → Option (List Char)
  | [] => some []
  | '%' :: h1 :: h2 :: rest =>
    match hexVal h1, hexVal h2 with
    | some d1, some d2 =>
      let b := d1 * 16 + d2
      if b < 0x80 then (decURIChars rest).map (Char.ofNat b :: ·)
      else if b < 0xC0 then none
      else if b < 0xE0 then
        match rest with
        | '%' :: h3 :: h4 :: rest2 =>
          match hexVal h3, hexVal h4 with
          | some d3, some d4 =>
            let b1 := d3 * 16 + d4
            if 0x80 ≤ b1 ∧ b1 < 0xC0 then
              let n := (b - 0xC0) * 64 + (b1 - 0x80)
              if n < 0x80 then none
              else (decURIChars rest2).map (Char.ofNat n :: ·)
            else none
          | _, _ => none
        | _ => none
      else if b < 0xF0 then
        match rest with
        | '%' :: h3 :: h4 :: '%' :: h5 :: h6 :: rest2 =>
          match hexVal h3, hexVal h4, hexVal h5, hexVal h6 with
          | some d3, some d4, some d5, some d6 =>
            let b1 := d3 * 16 + d4
            let b2 := d5 * 16 + d6
            if (0x80 ≤ b1 ∧ b1 < 0xC0) ∧ (0x80 ≤ b2 ∧ b2 < 0xC0) then
              let n := (b - 0xE0) * 4096 + (b1 - 0x80) * 64 + (b2 - 0x80)
              if n < 0x800 ∨ (0xD800 ≤ n ∧ n < 0xE000) then none
              else (decURIChars rest2).map (Char.ofNat n :: ·)
            else none
          | _, _, _, _ => none
        | _ => none
      else if b < 0xF8 then
        match rest with
        | '%' :: h3 :: h4 :: '%' :: h5 :: h6 :: '%' :: h7 :: h8 :: rest2 =>
          match hexVal h3, hexVal h4, hexVal h5, hexVal h6, hexVal h7, hexVal h8 with
          | some d3, some d4, some d5, some d6, some d7, some d8 =>
            let b1 := d3 * 16 + d4
            let b2 := d5 * 16 + d6
            let b3 := d7 * 16 + d8
            if (0x80 ≤ b1 ∧ b1 < 0xC0) ∧ (0x80 ≤ b2 ∧ b2 < 0xC0) ∧
                (0x80 ≤ b3 ∧ b3 < 0xC0) then
              let n := (b - 0xF0) * 262144 + (b1 - 0x80) * 4096 +
                (b2 - 0x80) * 64 + (b3 - 0x80)
              if n < 0x10000 ∨ 0x110000 ≤ n then none
              else (decURIChars rest2).map (Char.ofNat n :: ·)
            else none
          | _, _, _, _, _, _ => none
        | _ => none
      else none
    | _, _ => none
  | '%' :: _ => none
  | c :: rest => (decURIChars rest).map (c :: ·)

/-- `decodeURIComponent`, `none` when the real function would throw. -/
def decodeURIComponentQ (s : String) : Option String :=
  (decURIChars s.data).map String.mk

/-- Characters `encodeURI` leaves unescaped
(alphanumerics plus `; , / ? : @ & = + $ - _ . ! ~ * ' ( ) #`). -/
def encodeURIUnescaped (c : Char) : Bool :=
  (('A' ≤ c ∧ c ≤ 'Z') ∨ ('a' ≤ c ∧ c ≤ 'z') ∨ ('0' ≤ c ∧ c ≤ '9')) ||
    c ∈ [';', ',', '/', '?', ':', '@', '&', '=', '+', '$', '-', '_', '.', '!',
      '~', '*', '\'', '(', ')', '#']

/-- JS `encodeURI`. -/
def encodeURI (s : String) : String :=
  String.mk (listFlat
    (fun c => if encodeURIUnescaped c then [c] else listFlat pctHex (utf8EncodeChar c))
    s.data)

/-- JS `s.replace(/\s/g, "%20")` (line 314 of the source). -/
def wsToPct (s : String) : String :=
  String.mk (listFlat (fun c => if c.isWhitespace then ['%', '2', '0'] else [c]) s.data)

/-- The base64 alphabet. -/
def b64Alphabet : List Char :=
  "ABCDEFGHIJKLMNOPQRSTUVWXYZabcdefghijklmnopqrstuvwxyz0123456789+/".data

def b64Char (n : Nat) : Char := b64Alphabet.getD n 'A'

def b64Val (c : Char) : Option Nat :=
  (List.range 64).find? (fun i => b64Alphabet.getD i 'A' == c)

/-- RFC 4648 base64 with padding, as produced by JSZip's `async("base64")`. -/
def base64Encode : List Nat → String
  | [] => ""
  | [a] =>
    String.mk [b64Char (a / 4), b64Char (a % 4 * 16), '=', '=']
  | [a, b] =>
    String.mk [b64Char (a / 4), b64Char (a % 4 * 16 + b / 16), b64Char (b % 16 * 4), '=']
  | a :: b :: c :: rest =>
    String.mk [b64Char (a / 4), b64Char (a % 4 * 16 + b / 16),
      b64Char (b % 16 * 4 + c / 64), b64Char (c % 64)] ++ base64Encode rest

/-- Base64 decoding (padded input). -/
def base64DecodeChars : List Char → Option (List Nat)
  | [] => some []
  | [a, b, '=', '='] => do
    let va ← b64Val a
    let vb ← b64Val b
    pure [va * 4 + vb / 16]
  | [a, b, c, '='] => do
    let va ← b64Val a
    let vb ← b64Val b
    let vc ← b64Val c
    pure [va * 4 + vb / 16, vb % 16 * 16 + vc / 4]
  | a :: b :: c :: d :: rest => do
    let va ← b64Val a
    let vb ← b64Val b
    let vc ← b64Val c
    let vd ← b64Val d
    let tail ← base64DecodeChars rest
    pure ([va * 4 + vb / 16, vb % 16 * 16 + vc / 4, vc % 4 * 64 + vd] ++ tail)
  | _ => none

def base64Decode (s : String) : Option (List Nat) := base64DecodeChars s.data

/-- `detectMimeFromExt` from the source (lines 234-253). -/
def detectMimeFromExt (href : String) : String :=
  let ext := lowerStr (posixExtname href)
  if ext = ".jpg" ∨ ext = ".jpeg" then "image/jpeg"
  else if ext = ".png" then "image/png"
  else if ext = ".gif" then "image/gif"
  else if ext = ".svg" then "image/svg+xml"
  else if ext = ".webp" then "image/webp"
  else if ext = ".bmp" then "image/bmp"
  else "application/octet-stream"

/-! ## The DOM model

Cheerio documents are embedded as rose trees of elements and text nodes.
`load` always produces a document with `html`/`head`/`body` (parse5
inserts them), so a loaded document is a pair of forests. -/

inductive HNode where
  | elem (tag : String) (attrs : List (String × String)) (children : List HNode)
  | text (s : String)

structure HDoc where
  headNodes : List HNode
  bodyNodes : List HNode

/-- `attrs.attr(name)` (first match, like cheerio on a parsed element). -/
def attrGet (attrs : List (String × String)) (name : String) : Option String :=
  (attrs.find? (fun p => p.1 = name)).map (·.2)

/-- cheerio `.attr(name, value)`: overwrite in place, append when new. -/
def attrSet (attrs : List (String × String)) (name value : String) :
    List (String × String) :=
  if (attrs.find? (fun p => p.1 = name)).isSome then
    attrs.map (fun p => if p.1 = name then (p.1, value) else p)
  else attrs ++ [(name, value)]

/-- cheerio `.removeAttr(name)`. -/
def attrRemove (attrs : List (String × String)) (name : String) :
    List (String × String) :=
  attrs.filter (fun p => p.1 ≠ name)

mutual

/-- `$(tag).remove()`: delete every element with this tag, recursively. -/
def removeTagN (t : String) : HNode → List HNode
  | .text s => [.text s]
  | .elem tg a cs => if tg = t then [] else [.elem tg a (removeTagF t cs)]

def removeTagF (t : String) : List HNode → List HNode
  | [] => []
  | n :: ns => removeTagN t n ++ removeTagF t ns

end

mutual

/-- Number of elements matching the predicate (`$(sel).length`). -/
def countElemsN (p : String → List (String × String) → Bool) : HNode → Nat
  | .text _ => 0
  | .elem t a cs => (if p t a then 1 else 0) + countElemsF p cs

def countElemsF (p : String → List (String × String) → Bool) : List HNode → Nat
  | [] => 0
  | n :: ns => countElemsN p n + countElemsF p ns

end

mutual

/-- First element matching the predicate, in document (DFS) order. -/
def firstElemN (p : String → List (String × String) → Bool) :
    HNode → Option HNode
  | .text _ => none
  | .elem t a cs => if p t a then some (.elem t a cs) else firstElemF p cs

def firstElemF (p : String → List (String × String) → Bool) :
    List HNode → Option HNode
  | [] => none
  | n :: ns =>
    match firstElemN p n with
    | some r => some r
    | none => firstElemF p ns

end

mutual

/-- Concatenated text content (`.text()`). -/
def textOfN : HNode → String
  | .text s => s
  | .elem _ _ cs => textOfF cs

def textOfF : List HNode → String
  | [] => ""
  | n :: ns => textOfN n ++ textOfF ns

end

mutual

/-- Rewrite the attribute list of every element (passes that only touch
attributes: `img`, SVG `image`, `[style]`, `removeAttr`). -/
def attrPassN (f : String → List (String × String) → List (String × String)) :
    HNode → HNode
  | .text s => .text s
  | .elem t a cs => .elem t (f t a) (attrPassF f cs)

def attrPassF (f : String → List (String × String) → List (String × String)) :
    List HNode → List HNode
  | [] => []
  | n :: ns => attrPassN f n :: attrPassF f ns

end

mutual

/-- Replace matched elements wholesale (the `link[rel=stylesheet]` and
`style` passes); the replacement is not recursed into, matching cheerio's
snapshot semantics (the selection is taken before the tasks mutate). -/
def replacePassN (f : String → List (String × String) → List HNode → Option HNode) :
    HNode → HNode
  | .text s => .text s
  | .elem t a cs =>
    match f t a cs with
    | some r => r
    | none => .elem t a (replacePassF f cs)

def replacePassF (f : String → List (String × String) → List HNode → Option HNode) :
    List HNode → List HNode
  | [] => []
  | n :: ns => replacePassN f n :: replacePassF f ns

end

/-! ### Serialization (cheerio `.html()`) -/

def escText (s : String) : String :=
  String.mk (listFlat
    (fun c =>
      if c = '&' then "&amp;".data
      else if c = '<' then "&lt;".data
      else if c = '>' then "&gt;".data
      else [c])
    s.data)

def escAttr (s : String) : String :=
  String.mk (listFlat
    (fun c =>
      if c = '&' then "&amp;".data
      else if c = '"' then "&quot;".data
      else [c])
    s.data)

def voidTags : List String :=
  ["area", "base", "br", "col", "embed", "hr", "img", "input", "link", "meta",
    "param", "source", "track", "wbr"]

/-- Raw-text elements whose contents serialize unescaped. -/
def rawTextTags : List String := ["script", "style"]

def serializeAttrs (a : List (String × String)) : String :=
  String.join (a.map (fun p => " " ++ p.1 ++ "=\"" ++ escAttr p.2 ++ "\""))

mutual

def serializeNode : HNode → String
  | .text s => escText s
  | .elem t a cs =>
    if voidTags.contains t then "<" ++ t ++ serializeAttrs a ++ ">"
    else if rawTextTags.contains t then
      "<" ++ t ++ serializeAttrs a ++ ">" ++ textOfF cs ++ "</" ++ t ++ ">"
    else
      "<" ++ t ++ serializeAttrs a ++ ">" ++ serializeF cs ++ "</" ++ t ++ ">"

def serializeF : List HNode → String
  | [] => ""
  | n :: ns => serializeNode n ++ serializeF ns

end

/-- `$("body").html()`. -/
def bodyHtmlOf (d : HDoc) : String := serializeF d.bodyNodes

/-- `$.html()` / `$.root().html()`: the whole document with the
`html`/`head`/`body` wrappers parse5 inserted. -/
def docHtmlOf (d : HDoc) : String :=
  "<html><head>" ++ serializeF d.headNodes ++ "</head><body>" ++
    serializeF d.bodyNodes ++ "</body></html>"

/-- All nodes of the document in order (selectors search the whole tree). -/
def docNodes (d : HDoc) : List HNode := d.headNodes ++ d.bodyNodes

/-- Model of `load` applied to a string that was produced by serializing
the forest `ns`: parse5 wraps the fragment into `html`/`head`/`body`.
(Head-element hoisting is not modelled; the pipeline only reloads body
content, which contains no head-only elements in any run analysed here.) -/
def loadFragment (ns : List HNode) : HDoc := ⟨[], ns⟩

/-! ## CSS reference scanners

Hand-translations of the two regexes of the source,
`/url\(([^)]+)\)/g` and `/@import\s+(?:url\()?['"]?([^'")]+)['"]?\)?;/g`,
including the capture backtracking of the latter.  The scanners recurse on
a fuel initialized to the string length; every step consumes at least one
character, so the fuel never runs out on any input. -/

structure UrlMatch where
  full : String
  inner : String
deriving DecidableEq

def urlMatchesGo : Nat → List Char → List UrlMatch
  | 0, _ => []
  | _ + 1, [] => []
  | fuel + 1, l@(_ :: cs) =>
    if "url(".data.isPrefixOf l then
      let rest := l.drop 4
      let inner := rest.takeWhile (fun c => c ≠ ')')
      if inner ≠ [] ∧ rest.drop inner.length ≠ [] then
        { full := String.mk ("url(".data ++ inner ++ [')']),
          inner := String.mk inner } :: urlMatchesGo fuel (rest.drop (inner.length + 1))
      else urlMatchesGo fuel cs
    else urlMatchesGo fuel cs

def urlMatches (s : String) : List UrlMatch := urlMatchesGo s.data.length s.data

structure ImportMatch where
  full : String
  ref : String
deriving DecidableEq

def isQuoteChar (c : Char) : Bool := c = '\'' || c = '"'

/-- The `['"]?\)?;` tail of the import regex (no backtracking is needed
between the optional items because a quote or paren can never also start
the required `;`). -/
def importTail (l : List Char) : Option (List Char) :=
  let l1 := match l with
    | c :: r => if isQuoteChar c then r else l
    | [] => l
  let l2 := match l1 with
    | ')' :: r => r
    | _ => l1
  match l2 with
  | ';' :: r => some r
  | _ => none

/-- Greedy `([^'")]+)` capture with backtracking: longest capture whose
tail still matches, at least one character. -/
def importCaptureLen (run rest : List Char) : Nat → Option (Nat × List Char)
  | 0 => none
  | k + 1 =>
    match importTail (run.drop (k + 1) ++ rest) with
    | some after => some (k + 1, after)
    | none => importCaptureLen run rest k

def importCapture (l : List Char) : Option (List Char × List Char) :=
  let run := l.takeWhile (fun c => ¬(c = '\'' ∨ c = '"' ∨ c = ')'))
  let rest := l.drop run.length
  (importCaptureLen run rest run.length).map (fun p => (run.take p.1, p.2))

def importMatchesGo : Nat → List Char → List ImportMatch
  | 0, _ => []
  | _ + 1, [] => []
  | fuel + 1, l@(_ :: cs) =>
    if "@import".data.isPrefixOf l then
      let afterKw := l.drop 7
      let ws := afterKw.takeWhile Char.isWhitespace
      if ws = [] then importMatchesGo fuel cs
      else
        let afterWs := afterKw.drop ws.length
        let afterUrl := if "url(".data.isPrefixOf afterWs then afterWs.drop 4 else afterWs
        let afterQuote := match afterUrl with
          | q :: r => if isQuoteChar q then r else afterUrl
          | [] => afterUrl
        match importCapture afterQuote with
        | some (cap, after) =>
          { full := String.mk (l.take (l.length - after.length)),
            ref := String.mk cap } :: importMatchesGo fuel after
        | none => importMatchesGo fuel cs
    else importMatchesGo fuel cs

def importMatches (s : String) : List ImportMatch := importMatchesGo s.data.length s.data

/-- `match[1]?.trim().replace(/^['"]|['"]$/g, "")`. -/
def stripQuotes (s : String) : String :=
  let l := match s.data with
    | c :: r => if isQuoteChar c then r else s.data
    | [] => s.data
  let l' := match l.getLast? with
    | some c => if isQuoteChar c then l.dropLast else l
    | none => l
  String.mk l'

/-- The `/^https?:\/\//i` test. -/
def isHttpUrl (s : String) : Bool :=
  jsStartsWith (lowerStr s) "http://" || jsStartsWith (lowerStr s) "https://"

def stripLeadSlash (s : String) : String :=
  if headIs '/' s then dropFirstChar s else s

def stripDotSlash (s : String) : String :=
  if jsStartsWith s "./" then String.mk (s.data.drop 2) else s

/-! ## Archive and package model

A JSZip archive is an association list from entry name to entry.  The XML
and HTML parsers are external libraries; their output shape is attached to
the entry as a parse oracle (`htmlDoc`, `containerFullPath`, `opfDoc`) —
none of the claims concern the parsing itself, only what the code does
with the parsed values. -/

/-- A text/attribute value as `fast-xml-parser` hands it to `readText`:
absent, scalar text, a list, or a text-node-shaped object. -/
inductive XmlVal where
  | null
  | str (s : String)
  | arr (l : List XmlVal)
  | obj (textVal : Option String)

/-- `readText` (lines 186-202): `#text`-aware duck-typed text read.  An
empty string input is JS-falsy and yields `undefined`, but an object whose
`#text` is the empty string yields that empty string. -/
def readText : XmlVal → Option String
  | .null => none
  | .str s => if s = "" then none else some s
  | .arr [] => none
  | .arr (v :: _) => readText v
  | .obj t => t

/-- `normalizeArray` (lines 181-184) applied to a duck-typed value. -/
def normalizeVal : XmlVal → List XmlVal
  | .null => []
  | .str "" => []
  | .arr l => l
  | v => [v]

/-- A `T | T[] | undefined` field. -/
inductive XmlList (α : Type) where
  | nil
  | one (a : α)
  | many (l : List α)

/-- `normalizeArray` on a structured field. -/
def normalizeArray {α : Type} : XmlList α → List α
  | .nil => []
  | .one a => [a]
  | .many l => l

structure ManifestItemE where
  idAttr : Option String := none
  hrefAttr : Option String := none
  mediaTypeAttr : Option String := none
  propertiesAttr : Option String := none
deriving DecidableEq

structure SpineItemE where
  idrefAttr : Option String := none
  linearAttr : Option String := none

structure MetaTagE where
  nameAttr : Option String := none
  contentAttr : Option String := none
  propertyAttr : Option String := none

structure OpfMetadataE where
  titleVal : XmlVal := .null
  creatorVal : XmlVal := .null
  descriptionVal : XmlVal := .null
  coverVal : XmlVal := .null
  dcTitleVal : XmlVal := .null
  dcCreatorVal : XmlVal := .null
  dcDescriptionVal : XmlVal := .null
  metaTags : XmlList MetaTagE := .nil

structure OpfDocE where
  metadataVal : Option OpfMetadataE := none
  manifestItems : XmlList ManifestItemE := .nil
  spineItemrefs : XmlList SpineItemE := .nil

structure Entry where
  textContent : String := ""
  byteContent : List Nat := []
  htmlDoc : Option HDoc := none
  containerFullPath : Option String := none
  opfDoc : Option OpfDocE := none

abbrev Zip : Type := List (String × Entry)

/-- `zip.file(name)` (exact-name lookup). -/
def zipFile (z : Zip) (name : String) : Option Entry :=
  (z.find? (fun p => p.1 = name)).map (·.2)

/-- `zip.file(p) || zip.file(decodeURIComponent(p))`; a decoding exception
(malformed escape, which would reject the surrounding promise) is modelled
as a failed lookup — no claim exercises that path. -/
def zipFile2 (z : Zip) (name : String) : Option Entry :=
  (zipFile z name).orElse (fun _ => (decodeURIComponentQ name).bind (zipFile z))

/-- JS `Map` as an insertion-ordered association list: `set` overwrites in
place, later duplicate keys win, iteration follows insertion order. -/
def mapSet {κ ν : Type} [DecidableEq κ] (m : List (κ × ν)) (k : κ) (v : ν) :
    List (κ × ν) :=
  if (m.find? (fun p => p.1 = k)).isSome then
    m.map (fun p => if p.1 = k then (k, v) else p)
  else m ++ [(k, v)]

def mapOf {κ ν : Type} [DecidableEq κ] (l : List (κ × ν)) : List (κ × ν) :=
  l.foldl (fun m p => mapSet m p.1 p.2) []

def mapGet {κ ν : Type} [DecidableEq κ] (m : List (κ × ν)) (k : κ) : Option ν :=
  (m.find? (fun p => p.1 = k)).map (·.2)

/-- The manifest-by-href map (lines 283-290). -/
def mkManifestHrefMap (manifest : List ManifestItemE) (baseDir : String) :
    List (String × ManifestItemE) :=
  manifest.foldl
    (fun m item =>
      match item.hrefAttr with
      | some href => mapSet m (resolveZipPath baseDir href) item
      | none => m)
    []

/-- Fragment/query stripping plus `decodeURIComponent` with the
`try`/`catch` fallback (lines 296-303). -/
def cleanPathOf (resourcePath : String) : String :=
  let afterHash := (splitChar '#' resourcePath).getD 0 ""
  let cleanPath0 := (splitChar '?' afterHash).getD 0 ""
  (decodeURIComponentQ cleanPath0).getD cleanPath0

/-- The `pathVariations` list (lines 306-315), in source order. -/
def pathVariationsOf (resourcePath : String) : List String :=
  let cleanPath := cleanPathOf resourcePath
  [cleanPath,
    encodeURI cleanPath,
    stripLeadSlash cleanPath,
    stripLeadSlash (encodeURI cleanPath),
    stripDotSlash cleanPath,
    stripDotSlash (encodeURI cleanPath),
    wsToPct cleanPath]

/-- `getResourceDataUri` (lines 294-355): clean the path, percent-decode
it, try the variation list in order, fall back to a manifest-href scan,
and base64-encode the winning entry. -/
def getResourceDataUri (z : Zip) (mhm : List (String × ManifestItemE))
    (baseDir resourcePath : String) : Option String :=
  let cleanPath := cleanPathOf resourcePath
  let firstHit : Option (String × Entry) :=
    (pathVariationsOf resourcePath).findSome?
      (fun pv => (zipFile z pv).map (fun e => (pv, e)))
  let fallback : Option (String × Entry) :=
    mhm.findSome? (fun p =>
      match p.2.hrefAttr with
      | none => none
      | some mh =>
        let rmp := resolveZipPath baseDir mh
        let dec := decodeURIComponentQ cleanPath
        if rmp = cleanPath ∨ dec.any (fun d => rmp = d) ∨
            jsEndsWith rmp cleanPath = true ∨ dec.any (fun d => jsEndsWith rmp d) then
          (zipFile z rmp).map (fun e => (rmp, e))
        else none)
  match firstHit.orElse (fun _ => fallback) with
  | none => none
  | some (foundPath, file) =>
    let mediaType :=
      ((mapGet mhm foundPath).bind (·.mediaTypeAttr)).getD
        (detectMimeFromExt (if foundPath = "" then cleanPath else foundPath))
    some ("data:" ++ mediaType ++ ";base64," ++ base64Encode file.byteContent)

/-- The replacement (if any) a `url(...)` match receives: skipped when the
reference is empty/`data:`/http(s) or unresolvable, otherwise
`url(<data URI>)`. -/
def urlReplacementFor (z : Zip) (mhm : List (String × ManifestItemE))
    (baseDir cssDir : String) (m : UrlMatch) : Option String :=
  let rawRef := stripQuotes (jsTrim m.inner)
  if rawRef = "" ∨ jsStartsWith rawRef "data:" = true ∨ isHttpUrl rawRef = true then none
  else
    (getResourceDataUri z mhm baseDir (resolveZipPath cssDir rawRef)).map
      (fun dataUri => "url(" ++ dataUri ++ ")")

/-- One step of the `url(...)` substitution loop. -/
def urlSubstStep (z : Zip) (mhm : List (String × ManifestItemE))
    (baseDir cssDir : String) (updated : String) (m : UrlMatch) : String :=
  match urlReplacementFor z mhm baseDir cssDir m with
  | some r => replaceFirst updated m.full r
  | none => updated

/-- The `url(...)` substitution loop shared (verbatim in the source)
between `substituteCssUrls` (lines 362-373) and the style-attribute pass
(lines 566-580): matches are taken from the original string, replacements
are applied first-occurrence-wise to the accumulator. -/
def applyUrlSubstitutions (z : Zip) (mhm : List (String × ManifestItemE))
    (baseDir cssDir s : String) : String :=
  (urlMatches s).foldl (urlSubstStep z mhm baseDir cssDir) s

/-- `substituteCssUrls` (lines 357-395).  The source recurses through
`@import` with no depth guard or cycle check; the `Nat` argument models
the unbounded recursion (`none` = the real function would still be
recursing), it is not a guard present in the code. -/
def substituteCssUrls : Nat → Zip → List (String × ManifestItemE) → String →
    String → String → Option String
  | 0, _, _, _, _, _ => none
  | fuel + 1, z, mhm, baseDir, css, cssDir =>
    let updated := applyUrlSubstitutions z mhm baseDir cssDir css
    (importMatches css).foldlM
      (fun updated m =>
        let rawRef := jsTrim m.ref
        if rawRef = "" ∨ jsStartsWith rawRef "data:" = true ∨ isHttpUrl rawRef = true then
          some updated
        else
          let resourcePath := resolveZipPath cssDir rawRef
          match zipFile2 z resourcePath with
          | none => some updated
          | some file =>
            (substituteCssUrls fuel z mhm baseDir file.textContent
                (posixDirname resourcePath)).map
              (fun substituted => replaceFirst updated m.full substituted))
      updated

/-! ## sanitize-html, restricted to the configuration of `sanitizeOptions`
(lines 89-160): tag allowlist (library defaults plus `extendedTags`),
per-tag plus global attribute allowlist, `http/https/mailto/tel/data`
schemes on `href`/`src`/`cite`, and the inline-style property allowlist. -/

/-- sanitize-html v2 `defaults.allowedTags`. -/
def defaultAllowedTags : List String :=
  ["address", "article", "aside", "footer", "header", "h1", "h2", "h3", "h4",
    "h5", "h6", "hgroup", "main", "nav", "section", "blockquote", "dd", "div",
    "dl", "dt", "figcaption", "figure", "hr", "li", "main", "ol", "p", "pre",
    "ul", "a", "abbr", "b", "bdi", "bdo", "br", "cite", "code", "data", "dfn",
    "em", "i", "kbd", "mark", "q", "rb", "rp", "rt", "rtc", "ruby", "s",
    "samp", "small", "span", "strong", "sub", "sup", "time", "u", "var",
    "wbr", "caption", "col", "colgroup", "table", "tbody", "td", "tfoot",
    "th", "thead", "tr"]

/-- `extendedTags` from the source (lines 43-87). -/
def extendedTags : List String :=
  ["section", "article", "aside", "header", "footer", "figure", "figcaption",
    "center", "span", "div", "hr", "table", "thead", "tbody", "tfoot", "tr",
    "td", "th", "col", "colgroup", "pre", "code", "sup", "sub", "u", "s",
    "mark", "ins", "del", "svg", "path", "circle", "rect", "line", "polyline",
    "polygon", "ellipse", "g", "defs", "use", "image", "text", "tspan"]

def allowedTagsList : List String := defaultAllowedTags ++ extendedTags

/-- sanitize-html's `nonTextTags`: dropped together with their contents. -/
def nonTextTags : List String := ["script", "style", "textarea", "option"]

def globalAllowedAttrs : List String := ["class", "style", "id", "title", "align", "valign"]

/-- The per-tag entries of `allowedAttributes` (the `defaults` spread for
`a` and `img` is overwritten by the literal entries below it). -/
def perTagAllowedAttrs (t : String) : List String :=
  if t = "a" then ["href", "name", "target", "title"]
  else if t = "img" then ["src", "alt", "title", "width", "height", "class", "style", "id"]
  else if t = "svg" then ["width", "height", "viewBox", "xmlns", "class", "style", "id"]
  else if t = "path" then ["d", "fill", "stroke", "stroke-width", "class", "style", "id"]
  else if t = "g" then ["fill", "stroke", "stroke-width", "transform", "class", "style", "id"]
  else if t = "circle" then ["cx", "cy", "r", "fill", "stroke", "stroke-width", "class", "style", "id"]
  else if t = "rect" then ["x", "y", "width", "height", "fill", "stroke", "stroke-width", "class", "style", "id"]
  else if t = "image" then ["href", "xlink:href", "x", "y", "width", "height", "class", "style", "id"]
  else if t = "td" then ["colspan", "rowspan", "align", "valign", "width", "height"]
  else if t = "th" then ["colspan", "rowspan", "align", "valign", "width", "height"]
  else if t = "table" then ["border", "cellpadding", "cellspacing", "width", "height"]
  else []

def allowedSchemes : List String := ["http", "https", "mailto", "tel", "data"]

/-- Attributes the scheme check applies to
(`allowedSchemesAppliedToAttributes` default). -/
def schemeCheckedAttrs : List String := ["href", "src", "cite"]

/-- `/<!--.*?-->/g` stripping inside sanitize-html's `naughtyHref`
(`.` does not cross newlines). -/
def stripHtmlComments (fuel : Nat) (l : List Char) : List Char :=
  match fuel, l with
  | 0, l => l
  | _ + 1, [] => []
  | fuel + 1, c :: cs =>
    if "<!--".data.isPrefixOf (c :: cs) then
      let rest := (c :: cs).drop 4
      let line := rest.takeWhile (fun d => d ≠ '\n')
      match findClose line with
      | some k => stripHtmlComments fuel (rest.drop (k + 3))
      | none => c :: stripHtmlComments fuel cs
    else c :: stripHtmlComments fuel cs
where
  findClose (l : List Char) : Option Nat :=
    (List.range l.length).find? (fun i => "-->".data.isPrefixOf (l.drop i))

/-- Scheme extraction of `naughtyHref`: `/^([a-zA-Z][a-zA-Z0-9.+-]*):/`. -/
def schemeOf (s : String) : Option String :=
  match s.data with
  | [] => none
  | c :: rest =>
    if c.isAlpha then
      let run := rest.takeWhile (fun d => d.isAlphanum || d = '.' || d = '+' || d = '-')
      match rest.drop run.length with
      | ':' :: _ => some (String.mk (c :: run))
      | _ => none
    else none

/-- sanitize-html's `naughtyHref`: `true` means the value is rejected.
Relative URLs (no scheme) are accepted. -/
def naughtyHref (value : String) : Bool :=
  let cleaned := String.mk
    (stripHtmlComments value.data.length (value.data.filter (fun c => ¬c.toNat ≤ 0x20)))
  match schemeOf cleaned with
  | none => false
  | some scheme => ¬allowedSchemes.contains (lowerStr scheme)

/-- The `allowedStyles["*"]` property list of `sanitizeOptions`. -/
def styleAllowedProp (p : String) : Bool :=
  p ∈ ["color", "background-color", "background-image", "background-size",
    "background-position", "background-repeat", "text-align", "font-weight",
    "font-style", "font-size", "font-family", "text-decoration",
    "text-transform", "letter-spacing", "line-height", "margin", "margin-top",
    "margin-bottom", "margin-left", "margin-right", "padding", "padding-top",
    "padding-bottom", "padding-left", "padding-right", "border", "border-top",
    "border-bottom", "border-left", "border-right", "width", "height",
    "max-width", "max-height", "min-width", "min-height", "display",
    "position", "top", "bottom", "left", "right", "float", "clear",
    "vertical-align", "opacity", "visibility"]

/-- Value filter: every property uses `/^.+$/` (nonempty, single line)
except `text-align`'s four-keyword alternation. -/
def styleValueOk (p v : String) : Bool :=
  if p = "text-align" then v ∈ ["left", "right", "center", "justify"]
  else v.data ≠ [] && ¬v.data.contains '\n'

/-- Filter a `style` attribute through `allowedStyles`. -/
def sanitizeStyleAttr (v : String) : String :=
  let decls := (splitChar ';' v).filterMap (fun d =>
    let parts := splitChar ':' d
    match parts with
    | p :: rest =>
      let prop := jsTrim p
      let value := jsTrim (joinColon rest)
      if prop ≠ "" ∧ rest ≠ [] ∧ styleAllowedProp (lowerStr prop) = true ∧
          styleValueOk (lowerStr prop) value = true then
        some (prop ++ ":" ++ value)
      else none
    | [] => none)
  String.intercalate ";" decls
where
  joinColon : List String → String
    | [] => ""
    | [x] => x
    | x :: xs => x ++ ":" ++ joinColon xs

/-- Attribute filtering per `allowedAttributes` (global `*` list plus the
per-tag list), `allowedSchemes` on `href`/`src`/`cite`, and
`allowedStyles` on `style`. -/
def sanitizeAttrs (t : String) (attrs : List (String × String)) :
    List (String × String) :=
  attrs.filterMap (fun p =>
    let (n, v) := p
    if globalAllowedAttrs.contains n || (perTagAllowedAttrs t).contains n then
      if schemeCheckedAttrs.contains n ∧ naughtyHref v = true then none
      else if n = "style" then
        let v' := sanitizeStyleAttr v
        if v' = "" then none else some (n, v')
      else some (n, v)
    else none)

mutual

/-- sanitize-html over a parsed forest: `nonTextTags` are dropped with
their contents, other disallowed tags are discarded but their (sanitized)
children are kept, allowed tags keep filtered attributes. -/
def sanitizeN : HNode → List HNode
  | .text s => [.text s]
  | .elem t a cs =>
    if nonTextTags.contains t then []
    else if allowedTagsList.contains t then [.elem t (sanitizeAttrs t a) (sanitizeL cs)]
    else sanitizeL cs

def sanitizeL : List HNode → List HNode
  | [] => []
  | n :: ns => sanitizeN n ++ sanitizeL ns

end

/-! ## The per-chapter resource-rewriting passes (lines 441-588)

The selections are all taken synchronously before any task body runs, the
tasks mutate node-disjoint state, and `Promise.all` joins them before
serialization; the net effect is the sequential application below (the
`style` pass is applied before the `link` pass so that the `<style>`
elements injected by the latter are not re-processed, matching the
snapshot semantics). -/

mutual

def stylePassN (fuel : Nat) (z : Zip) (mhm : List (String × ManifestItemE))
    (baseDir htmlDir : String) : HNode → Option HNode
  | .text s => some (.text s)
  | .elem t a cs =>
    if t = "style" then
      let css := textOfF cs
      if css = "" then some (.elem t a cs)
      else
        (substituteCssUrls fuel z mhm baseDir css htmlDir).map
          (fun substituted => .elem t a [.text substituted])
    else (stylePassF fuel z mhm baseDir htmlDir cs).map (fun cs' => .elem t a cs')

def stylePassF (fuel : Nat) (z : Zip) (mhm : List (String × ManifestItemE))
    (baseDir htmlDir : String) : List HNode → Option (List HNode)
  | [] => some []
  | n :: ns => do
    let n' ← stylePassN fuel z mhm baseDir htmlDir n
    let ns' ← stylePassF fuel z mhm baseDir htmlDir ns
    pure (n' :: ns')

end

mutual

def linkPassN (fuel : Nat) (z : Zip) (mhm : List (String × ManifestItemE))
    (baseDir htmlDir : String) : HNode → Option HNode
  | .text s => some (.text s)
  | .elem t a cs =>
    if t = "link" ∧ attrGet a "rel" = some "stylesheet" then
      match attrGet a "href" with
      | none => some (.elem t a cs)
      | some href =>
        if href = "" ∨ jsStartsWith href "data:" = true ∨ isHttpUrl href = true then
          some (.elem t a cs)
        else
          let resourcePath := resolveZipPath htmlDir href
          match zipFile2 z resourcePath with
          | none => some (.elem t a cs)
          | some cssFile =>
            (substituteCssUrls fuel z mhm baseDir cssFile.textContent
                (posixDirname resourcePath)).map
              (fun substituted => .elem "style" [] [.text substituted])
    else (linkPassF fuel z mhm baseDir htmlDir cs).map (fun cs' => .elem t a cs')

def linkPassF (fuel : Nat) (z : Zip) (mhm : List (String × ManifestItemE))
    (baseDir htmlDir : String) : List HNode → Option (List HNode)
  | [] => some []
  | n :: ns => do
    let n' ← linkPassN fuel z mhm baseDir htmlDir n
    let ns' ← linkPassF fuel z mhm baseDir htmlDir ns
    pure (n' :: ns')

end

/-- `entry.split(/\s+/, 2)` for an already-trimmed srcset entry. -/
def splitWs2 (s : String) : String × Option String :=
  let url := s.data.takeWhile (fun c => !c.isWhitespace)
  let rest := (s.data.drop url.length).dropWhile Char.isWhitespace
  let descr := rest.takeWhile (fun c => !c.isWhitespace)
  (String.mk url, if descr = [] then none else some (String.mk descr))

/-- `[dataUri, descriptor].filter(Boolean).join(" ")`. -/
def joinUriDescr (dataUri : String) (descr : Option String) : String :=
  match descr with
  | some d => if d = "" then dataUri else dataUri ++ " " ++ d
  | none => dataUri

def joinCommaSpace : List String → String
  | [] => ""
  | [x] => x
  | x :: xs => x ++ ", " ++ joinCommaSpace xs

/-- The combined `src` resolution of the `img` pass: direct lookup, then
the manifest-substring fallback (lines 480-501).  `none` leaves the
attribute untouched (the logged resolution miss). -/
def imgSrcLookup (z : Zip) (mhm : List (String × ManifestItemE))
    (baseDir htmlDir src : String) : Option String :=
  let resourcePath := resolveZipPath htmlDir src
  match getResourceDataUri z mhm baseDir resourcePath with
  | some dataUri => some dataUri
  | none =>
    match mhm.find? (fun p =>
        match p.2.hrefAttr with
        | some h => h ≠ "" && (jsEndsWith h src || jsIncludes h src)
        | none => false) with
    | some pr =>
      match pr.2.hrefAttr with
      | some mh =>
        let correctPath := resolveZipPath baseDir mh
        getResourceDataUri z mhm baseDir correctPath
      | none => none
    | none => none

/-- What one srcset entry becomes (lines 514-525): skipped when its URL
field is empty or unresolvable, kept verbatim when absolute/data, else
rewritten to the data URI plus descriptor. -/
def srcsetEntryTransform (z : Zip) (mhm : List (String × ManifestItemE))
    (baseDir htmlDir : String) (entry : String) : Option String :=
  let (url, descr) := splitWs2 entry
  if url = "" then none
  else if jsStartsWith url "data:" = true ∨ isHttpUrl url = true then some entry
  else
    (getResourceDataUri z mhm baseDir (resolveZipPath htmlDir url)).map
      (fun dataUri => joinUriDescr dataUri descr)

/-- One step of the srcset loop: push the transformed entry, or skip. -/
def srcsetStep (z : Zip) (mhm : List (String × ManifestItemE))
    (baseDir htmlDir : String) (acc : List String) (entry : String) :
    List String :=
  match srcsetEntryTransform z mhm baseDir htmlDir entry with
  | some x => acc ++ [x]
  | none => acc

/-- The `srcset` entry loop (lines 512-526): absolute/data entries pass
through, resolvable relative entries are rewritten, unresolvable relative
entries are dropped from the accumulator. -/
def srcsetTransform (z : Zip) (mhm : List (String × ManifestItemE))
    (baseDir htmlDir : String) (entries : List String) : List String :=
  entries.foldl (srcsetStep z mhm baseDir htmlDir) []

/-- The `src` half of the `img` pass (lines 476-506). -/
def imgSrcStage (z : Zip) (mhm : List (String × ManifestItemE))
    (baseDir htmlDir : String) (attrs : List (String × String)) :
    List (String × String) :=
  match attrGet attrs "src" with
  | none => attrs
  | some src =>
    if src = "" ∨ jsStartsWith src "data:" = true ∨ isHttpUrl src = true then attrs
    else
      match imgSrcLookup z mhm baseDir htmlDir src with
      | some dataUri => attrSet attrs "src" dataUri
      | none => attrs

/-- `srcset.split(",").map(trim).filter(Boolean)` (line 510). -/
def srcsetEntriesOf (srcset : String) : List String :=
  ((splitChar ',' srcset).map jsTrim).filter (fun e => e ≠ "")

/-- The `srcset` half of the `img` pass (lines 508-533). -/
def imgSrcsetStage (z : Zip) (mhm : List (String × ManifestItemE))
    (baseDir htmlDir : String) (attrs1 : List (String × String)) :
    List (String × String) :=
  match attrGet attrs1 "srcset" with
  | none => attrs1
  | some srcset =>
    if srcset = "" then attrs1
    else
      let entries := srcsetEntriesOf srcset
      if entries = [] then attrs1
      else
        let transformed := srcsetTransform z mhm baseDir htmlDir entries
        if transformed ≠ [] then attrSet attrs1 "srcset" (joinCommaSpace transformed)
        else attrs1

/-- The `img` pass (lines 474-534): `src` rewriting with the
manifest-substring fallback, then `srcset` entry rewriting. -/
def imgAttrRewrite (z : Zip) (mhm : List (String × ManifestItemE))
    (baseDir htmlDir : String) (t : String) (attrs : List (String × String)) :
    List (String × String) :=
  if t ≠ "img" then attrs
  else imgSrcsetStage z mhm baseDir htmlDir (imgSrcStage z mhm baseDir htmlDir attrs)

/-- `image.attr("href") || image.attr("xlink:href")` (line 539). -/
def svgHrefOf (attrs : List (String × String)) : Option String :=
  match attrGet attrs "href" with
  | some h => if h = "" then attrGet attrs "xlink:href" else some h
  | none => attrGet attrs "xlink:href"

/-- `if (image.attr("href")) image.attr("href", dataUri)` (lines 546-548). -/
def svgSetHref (dataUri : String) (attrs : List (String × String)) :
    List (String × String) :=
  match attrGet attrs "href" with
  | some h => if h ≠ "" then attrSet attrs "href" dataUri else attrs
  | none => attrs

/-- `if (image.attr("xlink:href")) image.attr("xlink:href", dataUri)`
(lines 549-551). -/
def svgSetXlink (dataUri : String) (attrs1 : List (String × String)) :
    List (String × String) :=
  match attrGet attrs1 "xlink:href" with
  | some h => if h ≠ "" then attrSet attrs1 "xlink:href" dataUri else attrs1
  | none => attrs1

/-- The SVG `image` pass (lines 537-558). -/
def svgImageAttrRewrite (z : Zip) (mhm : List (String × ManifestItemE))
    (baseDir htmlDir : String) (t : String) (attrs : List (String × String)) :
    List (String × String) :=
  if t ≠ "image" then attrs
  else
    match svgHrefOf attrs with
    | none => attrs
    | some href =>
      if href = "" ∨ jsStartsWith href "data:" = true ∨ isHttpUrl href = true then attrs
      else
        let resourcePath := resolveZipPath htmlDir href
        match getResourceDataUri z mhm baseDir resourcePath with
        | none => attrs
        | some dataUri => svgSetXlink dataUri (svgSetHref dataUri attrs)

/-- The style-attribute pass (lines 560-584). -/
def styleAttrRewrite (z : Zip) (mhm : List (String × ManifestItemE))
    (baseDir htmlDir : String) (_t : String) (attrs : List (String × String)) :
    List (String × String) :=
  match attrGet attrs "style" with
  | none => attrs
  | some styleValue =>
    if styleValue = "" ∨ ¬jsIncludes styleValue "url(" then attrs
    else if urlMatches styleValue = [] then attrs
    else attrSet attrs "style" (applyUrlSubstitutions z mhm baseDir htmlDir styleValue)

/-! ## The spine walk and chapter extraction (lines 397-776) -/

structure ChapterPayload where
  title : String
  content : String
deriving DecidableEq

structure ParsedEpubE where
  title : String
  author : Option String
  description : Option String
  coverImage : Option String
  chapters : List ChapterPayload
deriving DecidableEq

inductive EpubErr where
  | missingContainer
  | missingPackagePath
  | missingPackageDocument
  | noReadableChapters
deriving DecidableEq

/-- What happened to one spine item: a structural `continue`, the
empty-content skip, the front-matter skip, or a pushed chapter. -/
inductive SpineOutcome where
  | skipped
  | skippedEmpty
  | skippedFrontMatter
  | kept (c : ChapterPayload)
deriving DecidableEq

def keptChapter : SpineOutcome → Option ChapterPayload
  | .kept c => some c
  | _ => none

/-- `/^[A-Za-z]:/` (Windows drive letter). -/
def driveLetterTest (s : String) : Bool :=
  match s.data with
  | c :: d :: _ => c.isAlpha && d = ':'
  | [c] => c.isAlpha && false
  | [] => false

/-- `.replace(/^[A-Za-z]:/, "").replace(/^\\/, "").replace(/^\//, "")`. -/
def stripDrive (s : String) : String :=
  let s1 := if driveLetterTest s then String.mk (s.data.drop 2) else s
  let s2 := if headIs '\\' s1 then dropFirstChar s1 else s1
  if headIs '/' s2 then dropFirstChar s2 else s2

/-- `.replace(/^[^/]*/, "").replace(/^\//, "")` (line 439). -/
def stripAbsDir (s : String) : String :=
  let s1 := String.mk (s.data.dropWhile (fun c => c ≠ '/'))
  if headIs '/' s1 then dropFirstChar s1 else s1

/-- `$("[style*='background-image']")` membership test. -/
def hasBgImageStyle (_t : String) (a : List (String × String)) : Bool :=
  match attrGet a "style" with
  | some v => jsIncludes v "background-image"
  | none => false

def optText : Option HNode → String
  | some n => textOfN n
  | none => ""

/-- The whole document as one node (used when the serialized body was
blank and the code falls back to `$.root().html()`). -/
def docAsNode (d : HDoc) : HNode :=
  .elem "html" [] [.elem "head" [] d.headNodes, .elem "body" [] d.bodyNodes]

/-- The front-matter title test (lines 720-726), on the lowercased title. -/
def isFrontMatterTitle (lowerTitle : String) : Bool :=
  jsIncludes lowerTitle "contents" || jsIncludes lowerTitle "table" ||
    jsIncludes lowerTitle "cover" || jsIncludes lowerTitle "title page" ||
    jsIncludes lowerTitle "copyright" || jsIncludes lowerTitle "introduction"

/-- The drop condition of line 751:
`plainText.length < 120 && isFrontMatter && !hasVisualContent`. -/
def frontMatterDrop (plainLen : Nat) (isFM hasVisual : Bool) : Bool :=
  decide (plainLen < 120) && isFM && !hasVisual

/-- `onclick`/`onerror` removal of the visual-content cleanup pass
(lines 696-697). -/
def dropClickErrorAttrs (_t : String) (a : List (String × String)) :
    List (String × String) :=
  attrRemove (attrRemove a "onclick") "onerror"

/-- One iteration of the spine loop (lines 397-776). -/
def extractSpineItem (fuel : Nat) (z : Zip) (mhm : List (String × ManifestItemE))
    (manifestMap : List (Option String × ManifestItemE)) (baseDir : String)
    (index : Nat) (itemRef : SpineItemE) : Option SpineOutcome :=
  match itemRef.idrefAttr with
  | none => some .skipped
  | some idRef =>
    if idRef = "" then some .skipped
    else if (match itemRef.linearAttr with
        | some s => lowerStr s == "no"
        | none => false) then some .skipped
    else
      match mapGet manifestMap (some idRef) with
      | none => some .skipped
      | some manifestItem =>
        match manifestItem.mediaTypeAttr with
        | none => some .skipped
        | some mediaType =>
          if mediaType = "" ∨ ¬jsIncludes mediaType "html" then some .skipped
          else
            match manifestItem.hrefAttr with
            | none => some .skipped
            | some href =>
              if href = "" then some .skipped
              else
                let rp0 := resolveZipPath baseDir href
                let rp1 := if headIs '/' rp0 then dropFirstChar rp0 else rp0
                let resolvedPath := if driveLetterTest rp1 then stripDrive rp1 else rp1
                match zipFile2 z resolvedPath with
                | none => some .skipped
                | some file =>
                  let doc0 := file.htmlDoc.getD ⟨[], []⟩
                  let doc1 : HDoc :=
                    ⟨removeTagF "script" doc0.headNodes,
                      removeTagF "script" doc0.bodyNodes⟩
                  let hd0 := posixDirname resolvedPath
                  let htmlDir :=
                    if headIs '/' hd0 ∨ driveLetterTest hd0 = true then stripAbsDir hd0
                    else hd0
                  (do
                    let h1 ← stylePassF fuel z mhm baseDir htmlDir doc1.headNodes
                    let b1 ← stylePassF fuel z mhm baseDir htmlDir doc1.bodyNodes
                    let h2 ← linkPassF fuel z mhm baseDir htmlDir h1
                    let b2 ← linkPassF fuel z mhm baseDir htmlDir b1
                    let h3 := attrPassF (imgAttrRewrite z mhm baseDir htmlDir) h2
                    let b3 := attrPassF (imgAttrRewrite z mhm baseDir htmlDir) b2
                    let h4 := attrPassF (svgImageAttrRewrite z mhm baseDir htmlDir) h3
                    let b4 := attrPassF (svgImageAttrRewrite z mhm baseDir htmlDir) b3
                    let h5 := attrPassF (styleAttrRewrite z mhm baseDir htmlDir) h4
                    let b5 := attrPassF (styleAttrRewrite z mhm baseDir htmlDir) b4
                    let doc : HDoc := ⟨h5, b5⟩
                    let imgCount := countElemsF (fun t _ => t = "img") (docNodes doc)
                    let svgCount := countElemsF (fun t _ => t = "svg") (docNodes doc)
                    let tStr := jsTrim (optText
                      (firstElemF (fun t _ => t = "title") (docNodes doc)))
                    let cStr := jsTrim (optText
                      (firstElemF (fun _ a =>
                          match attrGet a "class" with
                          | some cv => jsIncludes cv "title"
                          | none => false)
                        (docNodes doc)))
                    let title0 :=
                      if tStr ≠ "" then tStr
                      else if cStr ≠ "" then cStr
                      else "Chapter " ++ toString (index + 1)
                    let bodyHtml0 := serializeF doc.bodyNodes
                    let bgCount := countElemsF hasBgImageStyle (docNodes doc)
                    let hasVisualBefore :=
                      imgCount > 0 ∨ svgCount > 0 ∨ bgCount > 0
                    let contentPair : String × HDoc :=
                      if hasVisualBefore then
                        let c0 := serializeF doc.bodyNodes
                        if jsIncludes c0 "<script" ∨ jsIncludes c0 "javascript:" then
                          let cd0 := loadFragment doc.bodyNodes
                          let cd1 : HDoc :=
                            ⟨removeTagF "script" cd0.headNodes,
                              removeTagF "script" cd0.bodyNodes⟩
                          let cd2 : HDoc :=
                            ⟨attrPassF dropClickErrorAttrs cd1.headNodes,
                              attrPassF dropClickErrorAttrs cd1.bodyNodes⟩
                          let c1 := docHtmlOf cd2
                          if c1 = "" then (c0, loadFragment doc.bodyNodes)
                          else (c1, cd2)
                        else (c0, loadFragment doc.bodyNodes)
                      else
                        -- text-only chapter: sanitize-html over `bodyHtml`
                        -- (`content = bodyHtml ? sanitizeHtml(...) : ""`; the
                        -- body-fallback chain of lines 616-655 makes `bodyHtml`
                        -- the serialized body, or the whole document when the
                        -- body serialization is blank)
                        if jsTrim bodyHtml0 = "" then
                          let sanitized := sanitizeL [docAsNode doc]
                          (serializeF sanitized, loadFragment sanitized)
                        else
                          let sanitized := sanitizeL doc.bodyNodes
                          (serializeF sanitized, loadFragment sanitized)
                    let content := contentPair.1
                    let contentDoc := contentPair.2
                    if jsTrim content = "" then pure SpineOutcome.skippedEmpty
                    else
                      let headingTitle := jsTrim (optText
                        (firstElemF (fun t _ => t = "h1" ∨ t = "h2" ∨ t = "h3")
                          (docNodes contentDoc)))
                      let title := if headingTitle ≠ "" then headingTitle else title0
                      let plainText := jsTrim (collapseWs (textOfF (docNodes contentDoc)))
                      let lowerTitle := lowerStr title
                      let isFrontMatter := isFrontMatterTitle lowerTitle
                      let hasImages :=
                        decide (0 < countElemsF (fun t _ => t = "img") (docNodes contentDoc))
                      let hasSvg :=
                        decide (0 < countElemsF (fun t _ => t = "svg") (docNodes contentDoc))
                      let hasVisualContent := hasImages || hasSvg ||
                        decide (0 < countElemsF hasBgImageStyle (docNodes contentDoc))
                      -- lines 736-747: recovery re-reads the body when the
                      -- reloaded content lost expected images
                      let contentFinal :=
                        if 0 < imgCount ∧ hasImages = false then
                          let directContent := serializeF doc.bodyNodes
                          if jsIncludes directContent "data:image" then directContent
                          else content
                        else content
                      if frontMatterDrop plainText.data.length isFrontMatter hasVisualContent then
                        pure SpineOutcome.skippedFrontMatter
                      else pure (SpineOutcome.kept ⟨title, contentFinal⟩))

/-- The spine loop: one outcome per raw spine index, kept chapters pushed
in order. -/
def spineFold (fuel : Nat) (z : Zip) (mhm : List (String × ManifestItemE))
    (manifestMap : List (Option String × ManifestItemE)) (baseDir : String)
    (spine : List SpineItemE) : Option (List ChapterPayload) :=
  (List.range spine.length).foldlM
    (fun acc i =>
      (extractSpineItem fuel z mhm manifestMap baseDir i
          (spine.getD i ⟨none, none⟩)).map
        (fun out =>
          match keptChapter out with
          | some c => acc ++ [c]
          | none => acc))
    []

/-- JS `a || b` on optional strings (empty string is falsy). -/
def truthyOpt : Option String → Option String
  | some s => if s = "" then none else some s
  | none => none

def jsOrStr (a b : Option String) : Option String :=
  (truthyOpt a).orElse (fun _ => truthyOpt b)

/-- `fallbackTitle.replace(/\.epub$/i, "")`. -/
def stripEpubSuffix (s : String) : String :=
  if jsEndsWith (lowerStr s) ".epub" then String.mk (s.data.take (s.data.length - 5))
  else s

/-- The cover id (lines 778-782): `@_content` of the first
`name="cover"`/`property="cover"` meta tag, else the text of a metadata
`cover` element, trimmed. -/
def coverIdOf (metadataMeta : List MetaTagE) (metadata : OpfMetadataE) :
    Option String :=
  let coverId0 := (metadataMeta.find? (fun m =>
      (match m.nameAttr with
        | some n => lowerStr n = "cover"
        | none => false) ||
      (match m.propertyAttr with
        | some p => lowerStr p = "cover"
        | none => false))).bind (·.contentAttr)
  (jsOrStr coverId0 (readText metadata.coverVal)).map jsTrim

/-- `properties` test of the second cover fallback (line 786). -/
def isCoverImageProps (i : ManifestItemE) : Bool :=
  match i.propertiesAttr with
  | some p => jsIncludes p "cover-image"
  | none => false

/-- Media-type test of the third cover fallback (line 787). -/
def isImageMediaType (i : ManifestItemE) : Bool :=
  match i.mediaTypeAttr with
  | some mt => jsStartsWith mt "image/"
  | none => false

/-- Cover-item selection (lines 778-787):
`(coverId && find-by-id) || find-by-cover-image-properties ||
find-by-image-media-type`. -/
def selectCoverItem (metadataMeta : List MetaTagE) (metadata : OpfMetadataE)
    (manifest : List ManifestItemE) : Option ManifestItemE :=
  ((coverIdOf metadataMeta metadata).bind (fun cid =>
    if cid ≠ "" then manifest.find? (fun (i : ManifestItemE) => i.idAttr = some cid)
    else none)).orElse (fun _ =>
  (manifest.find? isCoverImageProps).orElse (fun _ =>
  manifest.find? isImageMediaType))

/-- Cover data-URI computation (lines 789-799). -/
def computeCoverImage (z : Zip) (metadataMeta : List MetaTagE)
    (metadata : OpfMetadataE) (manifest : List ManifestItemE)
    (baseDir : String) : Option String :=
  match selectCoverItem metadataMeta metadata manifest with
  | none => none
  | some coverItem =>
    match coverItem.hrefAttr with
    | none => none
    | some href =>
      if href = "" then none
      else
        let coverPath := resolveZipPath baseDir href
        match zipFile2 z coverPath with
        | none => none
        | some coverFile =>
          let mediaType :=
            match truthyOpt coverItem.mediaTypeAttr with
            | some mt => mt
            | none => detectMimeFromExt coverPath
          some ("data:" ++ mediaType ++ ";base64," ++
            base64Encode coverFile.byteContent)

/-- The structural stage of `parseEpub` (lines 256-276): container lookup,
root-file path, package document. -/
def parseEpubStructural (z : Zip) : Except EpubErr (String × OpfDocE) :=
  match zipFile z "META-INF/container.xml" with
  | none => .error .missingContainer
  | some centry =>
    if centry.textContent = "" then .error .missingContainer
    else
      match centry.containerFullPath with
      | none => .error .missingPackagePath
      | some rootFilePath =>
        if rootFilePath = "" then .error .missingPackagePath
        else
          match zipFile z rootFilePath with
          | none => .error .missingPackageDocument
          | some oentry =>
            if oentry.textContent = "" then .error .missingPackageDocument
            else .ok (rootFilePath, oentry.opfDoc.getD {})

/-- The spine loop with its environment derived from the parsed package
(the `let` bindings of lines 277-290). -/
def spineFoldOf (fuel : Nat) (z : Zip) (rootFilePath : String) (opf : OpfDocE) :
    Option (List ChapterPayload) :=
  let manifest := normalizeArray opf.manifestItems
  let baseDir := posixDirname rootFilePath
  spineFold fuel z (mkManifestHrefMap manifest baseDir)
    (mapOf (manifest.map (fun i => (i.idAttr, i)))) baseDir
    (normalizeArray opf.spineItemrefs)

/-- Book assembly (lines 778-826): cover, metadata fields, chapters. -/
def assembleBook (z : Zip) (rootFilePath : String) (opf : OpfDocE)
    (fallbackTitle : String) (chapters : List ChapterPayload) : ParsedEpubE :=
  let metadata := opf.metadataVal.getD {}
  let manifest := normalizeArray opf.manifestItems
  let metadataMeta := normalizeArray metadata.metaTags
  let baseDir := posixDirname rootFilePath
  let coverImage := computeCoverImage z metadataMeta metadata manifest baseDir
  let title :=
    match jsOrStr (readText ((normalizeVal metadata.dcTitleVal).getD 0 .null))
        (readText metadata.titleVal) with
    | some t => t
    | none => stripEpubSuffix fallbackTitle
  let author :=
    jsOrStr (readText ((normalizeVal metadata.dcCreatorVal).getD 0 .null))
      (readText metadata.creatorVal)
  let descr :=
    jsOrStr (readText ((normalizeVal metadata.dcDescriptionVal).getD 0 .null))
      (readText metadata.descriptionVal)
  ⟨title, author, descr, coverImage, chapters⟩

/-- `parseEpub` (lines 255-827).  The outer `Option` is the divergence
of the unguarded CSS `@import` recursion: `none` means the real function
would still be recursing at that depth. -/
def parseEpub (fuel : Nat) (z : Zip) (fallbackTitle : String) :
    Option (Except EpubErr ParsedEpubE) :=
  match parseEpubStructural z with
  | .error e => some (.error e)
  | .ok (rootFilePath, opf) =>
    match spineFoldOf fuel z rootFilePath opf with
    | none => none
    | some chapters =>
      if chapters = [] then some (.error .noReadableChapters)
      else some (.ok (assembleBook z rootFilePath opf fallbackTitle chapters))

/-! ## The import route's chapter rows (`route.ts`, lines 117-126):
`position: index` over the parsed chapter list. -/

structure ChapterRow where
  title : String
  content : String
  position : Nat
deriving DecidableEq

def chapterRows (p : ParsedEpubE) : List ChapterRow :=
  p.chapters.mapIdx (fun i c => ⟨c.title, c.content, i⟩)

/-! ## Concrete sample archives -/

def containerEntry : Entry :=
  { textContent := "<container/>", containerFullPath := some "OEBPS/content.opf" }

/-- OPF with a front-matter candidate (`toc`) before a regular chapter. -/
def tocOpf : OpfDocE :=
  { metadataVal := some { titleVal := .str "Sample Book" },
    manifestItems := .many
      [{ idAttr := some "toc", hrefAttr := some "toc.xhtml",
          mediaTypeAttr := some "application/xhtml+xml" },
        { idAttr := some "ch1", hrefAttr := some "ch1.xhtml",
          mediaTypeAttr := some "application/xhtml+xml" }],
    spineItemrefs := .many
      [{ idrefAttr := some "toc" }, { idrefAttr := some "ch1" }] }

/-- A 40-character text-only table-of-contents document. -/
def tocDoc : HDoc :=
  ⟨[.elem "title" [] [.text "Table of Contents"]],
    [.elem "p" [] [.text "A short list of the chapters in the book"]]⟩

/-- The same table of contents with one (absolute-URL) image. -/
def tocImgDoc : HDoc :=
  ⟨[.elem "title" [] [.text "Table of Contents"]],
    [.elem "p" [] [.text "A short list of the chapters in the book"],
      .elem "img" [("src", "http://example.com/decor.png")] []]⟩

def ch1Doc : HDoc :=
  ⟨[.elem "title" [] [.text "Chapter One"]],
    [.elem "p" [] [.text "Some chapter text for the first chapter."]]⟩

def tocDropZip : Zip :=
  [("META-INF/container.xml", containerEntry),
    ("OEBPS/content.opf", { textContent := "<package/>", opfDoc := some tocOpf }),
    ("OEBPS/toc.xhtml", { textContent := "<html/>", htmlDoc := some tocDoc }),
    ("OEBPS/ch1.xhtml", { textContent := "<html/>", htmlDoc := some ch1Doc })]

def tocKeepZip : Zip :=
  [("META-INF/container.xml", containerEntry),
    ("OEBPS/content.opf", { textContent := "<package/>", opfDoc := some tocOpf }),
    ("OEBPS/toc.xhtml", { textContent := "<html/>", htmlDoc := some tocImgDoc }),
    ("OEBPS/ch1.xhtml", { textContent := "<html/>", htmlDoc := some ch1Doc })]

/-- OPF with a single chapter `ch.xhtml`. -/
def oneChapterOpf : OpfDocE :=
  { metadataVal := some { titleVal := .str "Sample Book" },
    manifestItems := .many
      [{ idAttr := some "ch", hrefAttr := some "ch.xhtml",
          mediaTypeAttr := some "application/xhtml+xml" }],
    spineItemrefs := .many [{ idrefAttr := some "ch" }] }

def oneChapterZip (d : HDoc) : Zip :=
  [("META-INF/container.xml", containerEntry),
    ("OEBPS/content.opf", { textContent := "<package/>", opfDoc := some oneChapterOpf }),
    ("OEBPS/ch.xhtml", { textContent := "<html/>", htmlDoc := some d })]

/-- Visual chapter carrying a `javascript:` link. -/
def jsHrefDoc : HDoc :=
  ⟨[.elem "title" [] [.text "One"]],
    [.elem "img" [("src", "http://example.com/p.png")] [],
      .elem "a" [("href", "javascript:alert(1)")] [.text "x"]]⟩

/-- Visual chapter whose image is missing from the archive. -/
def missingImgDoc : HDoc :=
  ⟨[.elem "title" [] [.text "One"]],
    [.elem "img" [("src", "missing.png")] []]⟩

/-- Visual chapter whose srcset mixes a resolvable and a missing entry. -/
def srcsetDoc : HDoc :=
  ⟨[.elem "title" [] [.text "One"]],
    [.elem "img" [("srcset", "a.png 1x, missing.png 2x")] []]⟩

def srcsetZip : Zip :=
  oneChapterZip srcsetDoc ++ [("OEBPS/a.png", { byteContent := [1, 2, 3] })]

/-! ## C2: the CSS `@import` recursion has no guard and diverges on a
self-importing stylesheet -/

/-- An archive with one stylesheet that imports itself. -/
def selfImportZip : Zip := [("style/self.css", { textContent := "@import 'self.css';" })]

/-- An archive whose single import is acyclic. -/
def acyclicImportZip : Zip := [("style/a.css", { textContent := "p{}" })]

/-- C2 (code bug, evaluated at the failing input): on the self-importing
stylesheet, the `@import` inlining never returns — for every recursion
depth `n`, the fuel-indexed embedding is still recursing (`none`), because
each level re-enters `substituteCssUrls` on the very same stylesheet and
directory, with no depth guard or visited-path check anywhere in the code.
On an acyclic import the same function returns at depth 2, showing the
fuel encoding itself is not the obstacle. -/
theorem c2_substituteCssUrls_unguarded :
    (∀ n : Nat,
      substituteCssUrls n selfImportZip [] "OEBPS" "@import 'self.css';" "style" = none) ∧
    substituteCssUrls 2 acyclicImportZip [] "OEBPS" "@import 'a.css';" "style" =
      some "p{}" := by
  refine ⟨?_, by decide⟩
  intro n
  induction n with
  | zero => rfl
  | succ n ih =>
    have step :
        substituteCssUrls (n + 1) selfImportZip [] "OEBPS" "@import 'self.css';" "style" =
          (Option.map
              (fun substituted =>
                replaceFirst "@import 'self.css';" "@import 'self.css';" substituted)
              (substituteCssUrls n selfImportZip [] "OEBPS" "@import 'self.css';"
                "style")).bind
            (fun s' => some s') := rfl
    rw [step, ih]
    rfl

/-! ## C5: archive lookup order — the percent-decoded path is tried
before (in fact instead of) the literal path -/

theorem findSome?_eq_of_first {α β : Type} (f : α → Option β) :
    ∀ (l : List α) (k : Nat) (d : α) (b : β),
      k < l.length →
      (∀ w ∈ l.take k, f w = none) →
      f (l.getD k d) = some b →
      l.findSome? f = some b := by
  intro l
  induction l with
  | nil =>
    intro k d b hk
    simp at hk
  | cons x xs ih =>
    intro k d b hk hmiss hget
    cases k with
    | zero =>
      simp only [List.getD_cons_zero] at hget
      rw [List.findSome?_cons, hget]
    | succ k =>
      have hx : f x = none := hmiss x (by simp)
      rw [List.findSome?_cons, hx]
      exact ih k d b (by simpa using hk)
        (fun w hw => hmiss w (by simp [hw]))
        (by simpa using hget)

/-- C5, as amended: the lookup first strips fragment/query and
percent-decodes the path (`cleanPathOf`), then tries, in source order:
the decoded path, its re-encoded form (`encodeURI`), both with a leading
slash stripped, both with a leading `./` stripped, and the decoded path
with whitespace re-escaped as `%20`; the first variation present in the
archive wins and its bytes are returned as a data URI (with the media
type taken from the manifest-href map at the winning variation, else
sniffed from the extension).  The literal path as given is not tried
first — when the decoded and the literal path name distinct entries, the
decoded entry wins (see the counterexample). -/
theorem c5_lookup_first_variation_wins (z : Zip) (mhm : List (String × ManifestItemE))
    (baseDir resourcePath : String) (k : Nat) (e : Entry)
    (hk : k < (pathVariationsOf resourcePath).length)
    (hmiss : ∀ w ∈ (pathVariationsOf resourcePath).take k, zipFile z w = none)
    (hhit : zipFile z ((pathVariationsOf resourcePath).getD k "") = some e) :
    getResourceDataUri z mhm baseDir resourcePath =
      some ("data:" ++
        (((mapGet mhm ((pathVariationsOf resourcePath).getD k "")).bind
            (·.mediaTypeAttr)).getD
          (detectMimeFromExt
            (if (pathVariationsOf resourcePath).getD k "" = "" then
              cleanPathOf resourcePath
            else (pathVariationsOf resourcePath).getD k ""))) ++
        ";base64," ++ base64Encode e.byteContent) := by
  have hfirst :
      (pathVariationsOf resourcePath).findSome?
          (fun pv => (zipFile z pv).map (fun e => (pv, e))) =
        some ((pathVariationsOf resourcePath).getD k "", e) := by
    refine findSome?_eq_of_first _ _ k "" _ hk ?_ ?_
    · intro w hw
      rw [hmiss w hw]
      rfl
    · rw [hhit]
      rfl
  unfold getResourceDataUri
  rw [hfirst]
  rfl

/-- Witness for `c5_lookup_first_variation_wins`: a percent-encoded path
whose decoded form is the archive entry. -/
theorem c5_lookup_first_variation_wins_witness :
    getResourceDataUri [("a b.png", { byteContent := [1, 2, 3] })] [] "OEBPS"
        "a%20b.png" =
      some "data:image/png;base64,AQID" := by
  exact c5_lookup_first_variation_wins
    [("a b.png", { byteContent := [1, 2, 3] })] [] "OEBPS" "a%20b.png" 0
    { byteContent := [1, 2, 3] } (by decide)
    (by intro w hw; simp at hw) rfl

/-- C5 counterexample: the archive holds distinct entries under the
literal name `a%20b.png` (bytes `[9]`) and the decoded name `a b.png`
(bytes `[1,2,3]`).  The claim says the literal path's entry wins; the
code decodes first and returns the decoded entry's bytes. -/
theorem c5_counterexample :
    getResourceDataUri
        [("a%20b.png", { byteContent := [9] }),
          ("a b.png", { byteContent := [1, 2, 3] })] [] "OEBPS" "a%20b.png" =
      some "data:image/png;base64,AQID" ∧
    some "data:image/png;base64,AQID" ≠
      some ("data:image/png;base64," ++ base64Encode [9]) := by
  exact ⟨by decide, by decide⟩

/-! ## C7: the front-matter filter -/

/-- C7: a spine item is dropped as front matter exactly when its
(lowercased) derived title contains one of the six keywords, its
collapsed plain-text length is below 120, and it has no visual signal
(image, SVG, or `background-image` inline style) — and, end to end, a
"Table of Contents" item with 40 characters of text and no images is
dropped, while the identical item with one `<img>` is kept. -/
theorem c7_front_matter_filter :
    (∀ (len : Nat) (isFM hasVisual : Bool),
        frontMatterDrop len isFM hasVisual = true ↔
          (len < 120 ∧ isFM = true ∧ hasVisual = false)) ∧
    (∀ lowerTitle : String,
        isFrontMatterTitle lowerTitle = true ↔
          (jsIncludes lowerTitle "contents" = true ∨
            jsIncludes lowerTitle "table" = true ∨
            jsIncludes lowerTitle "cover" = true ∨
            jsIncludes lowerTitle "title page" = true ∨
            jsIncludes lowerTitle "copyright" = true ∨
            jsIncludes lowerTitle "introduction" = true)) ∧
    (parseEpub 1 tocDropZip "book.epub").map
        (Except.map (fun b => b.chapters.map (·.title))) =
      some (.ok ["Chapter One"]) ∧
    (parseEpub 1 tocKeepZip "book.epub").map
        (Except.map (fun b => b.chapters.map (·.title))) =
      some (.ok ["Table of Contents", "Chapter One"]) := by
  refine ⟨?_, ?_, by decide, by decide⟩
  · intro len isFM hasVisual
    simp only [frontMatterDrop, Bool.and_eq_true, decide_eq_true_eq,
      Bool.not_eq_true']
    tauto
  · intro lowerTitle
    simp only [isFrontMatterTitle, Bool.or_eq_true]
    tauto

/-! ## C9: chapter ordering and contiguous positions -/

theorem foldlM_kept_eq_filterMap (F : Nat → Option SpineOutcome) :
    ∀ (idxs : List Nat) (acc l : List ChapterPayload),
      idxs.foldlM
          (fun a i => (F i).map (fun out =>
            match keptChapter out with
            | some c => a ++ [c]
            | none => a)) acc = some l →
      l = acc ++ idxs.filterMap (fun i => (F i).bind keptChapter) := by
  intro idxs
  induction idxs with
  | nil =>
    intro acc l h
    simp only [List.foldlM_nil] at h
    cases h
    simp
  | cons i is ih =>
    intro acc l h
    simp only [List.foldlM_cons] at h
    cases hF : F i with
    | none =>
      rw [hF] at h
      simp at h
    | some out =>
      rw [hF] at h
      simp only [Option.map_some', Option.some_bind, Option.bind_eq_bind] at h
      cases hk : keptChapter out with
      | some c =>
        rw [hk] at h
        have := ih (acc ++ [c]) l h
        rw [this, List.filterMap_cons, hF]
        simp [hk]
      | none =>
        rw [hk] at h
        have := ih acc l h
        rw [this, List.filterMap_cons, hF]
        simp [hk]

/-- C9: the rows the import route stores carry `position = index`, a
contiguous 0-based sequence over the final chapter list; and the chapter
list produced by the spine loop is exactly the in-order `filterMap` of
the extraction outcomes over raw spine indices — kept chapters appear in
filtered spine order, positions are indices into the filtered list. -/
theorem c9_positions_contiguous :
    (∀ p : ParsedEpubE,
        (chapterRows p).map (·.position) = List.range p.chapters.length) ∧
    (∀ (fuel : Nat) (z : Zip) (mhm : List (String × ManifestItemE))
        (manifestMap : List (Option String × ManifestItemE)) (baseDir : String)
        (spine : List SpineItemE) (l : List ChapterPayload),
        spineFold fuel z mhm manifestMap baseDir spine = some l →
        l = (List.range spine.length).filterMap
          (fun i => (extractSpineItem fuel z mhm manifestMap baseDir i
              (spine.getD i ⟨none, none⟩)).bind keptChapter)) := by
  constructor
  · intro p
    apply List.ext_getElem
    · simp [chapterRows]
    · intro i h1 h2
      simp [chapterRows]
  · intro fuel z mhm manifestMap baseDir spine l h
    have := foldlM_kept_eq_filterMap
      (fun i => extractSpineItem fuel z mhm manifestMap baseDir i
        (spine.getD i ⟨none, none⟩))
      (List.range spine.length) [] l h
    simpa using this

set_option maxHeartbeats 2000000 in
/-- Witness for `c9_positions_contiguous` on the two-chapter sample. -/
theorem c9_positions_contiguous_witness :
    ([⟨"Table of Contents",
        "<p>A short list of the chapters in the book</p><img src=\"http://example.com/decor.png\">"⟩,
      ⟨"Chapter One", "<p>Some chapter text for the first chapter.</p>"⟩] :
        List ChapterPayload) =
      (List.range 2).filterMap
        (fun i => (extractSpineItem 1 tocKeepZip
            (mkManifestHrefMap (normalizeArray tocOpf.manifestItems) "OEBPS")
            (mapOf ((normalizeArray tocOpf.manifestItems).map (fun i => (i.idAttr, i))))
            "OEBPS" i
            ((normalizeArray tocOpf.spineItemrefs).getD i ⟨none, none⟩)).bind
          keptChapter) :=
  c9_positions_contiguous.2 1 tocKeepZip
    (mkManifestHrefMap (normalizeArray tocOpf.manifestItems) "OEBPS")
    (mapOf ((normalizeArray tocOpf.manifestItems).map (fun i => (i.idAttr, i))))
    "OEBPS" (normalizeArray tocOpf.spineItemrefs) _ (by decide)

/-! ## C10: `NoReadableChapters` exactly when the filtered list is empty -/

theorem parseEpubStructural_ne_noReadable (z : Zip) :
    parseEpubStructural z ≠ .error .noReadableChapters := by
  unfold parseEpubStructural
  split <;> try simp
  split <;> try simp
  split <;> try simp
  split <;> try simp
  split <;> try simp
  split <;> simp

/-- C10: a run of `parseEpub` returns the `NoReadableChapters` error
exactly when the structural stage succeeded and the spine loop produced
an empty chapter list; conversely a returned book always has a non-empty
chapter list. -/
theorem c10_noReadableChapters_iff_empty :
    (∀ (fuel : Nat) (z : Zip) (fb : String) (res : Except EpubErr ParsedEpubE),
        parseEpub fuel z fb = some res →
        (res = .error .noReadableChapters ↔
          ∃ rootFilePath opf,
            parseEpubStructural z = .ok (rootFilePath, opf) ∧
            spineFoldOf fuel z rootFilePath opf = some [])) ∧
    (∀ (fuel : Nat) (z : Zip) (fb : String) (b : ParsedEpubE),
        parseEpub fuel z fb = some (.ok b) → b.chapters ≠ []) := by
  have main : ∀ (fuel : Nat) (z : Zip) (fb : String) (res : Except EpubErr ParsedEpubE),
      parseEpub fuel z fb = some res →
      ((res = .error .noReadableChapters ↔
        ∃ rootFilePath opf,
          parseEpubStructural z = .ok (rootFilePath, opf) ∧
          spineFoldOf fuel z rootFilePath opf = some []) ∧
        (∀ b, res = .ok b → b.chapters ≠ [])) := by
    intro fuel z fb res h
    unfold parseEpub at h
    split at h
    next e heq =>
      simp only [Option.some.injEq] at h
      subst h
      refine ⟨⟨?_, ?_⟩, ?_⟩
      · intro hres
        have he : e = .noReadableChapters := by
          injection hres
        exact absurd (he ▸ heq) (parseEpubStructural_ne_noReadable z)
      · rintro ⟨rp, opf, hok, _⟩
        rw [heq] at hok
        cases hok
      · intro b hb
        cases hb
    next rootFilePath opf heq =>
      split at h
      next hsf => cases h
      next chapters hsf =>
        split at h
        next hc =>
          simp only [Option.some.injEq] at h
          subst h
          refine ⟨⟨?_, ?_⟩, ?_⟩
          · intro _
            exact ⟨rootFilePath, opf, heq, hc ▸ hsf⟩
          · intro _
            rfl
          · intro b hb
            cases hb
        next hc =>
          simp only [Option.some.injEq] at h
          subst h
          refine ⟨⟨?_, ?_⟩, ?_⟩
          · intro hres
            cases hres
          · rintro ⟨rp', opf', hok, hempty⟩
            rw [heq] at hok
            injection hok with hpair
            injection hpair with h1 h2
            subst h1
            subst h2
            rw [hsf] at hempty
            injection hempty with hemp
            exact absurd hemp hc
          · intro b hb
            injection hb with hb'
            rw [← hb']
            simpa [assembleBook] using hc
  exact ⟨fun fuel z fb res h => (main fuel z fb res h).1,
    fun fuel z fb b h => (main fuel z fb (.ok b) h).2 b rfl⟩

/-- Witness for `c10_noReadableChapters_iff_empty`: the parsed sample book
has a non-empty chapter list. -/
theorem c10_noReadableChapters_iff_empty_witness :
    (ParsedEpubE.mk "Sample Book" none none none
        [⟨"Chapter One", "<p>Some chapter text for the first chapter.</p>"⟩]).chapters ≠ [] :=
  c10_noReadableChapters_iff_empty.2 1 tocDropZip "book.epub" _ (by decide)

/-! ## C1: the visual-content path does not strip `javascript:` URLs -/

/-- C1 (code bug, evaluated at the failing input): a visual chapter (it
contains an `<img>`) whose `<a href="javascript:alert(1)">` survives
extraction — the detection on line 692 sees the `javascript:` substring,
but the cleanup only removes `<script>` elements and `onclick`/`onerror`
attributes, so the stored content still carries the `javascript:`-scheme
attribute (while, as the claim says, no `<script>` element survives). -/
theorem c1_javascript_href_survives :
    (parseEpub 1 (oneChapterZip jsHrefDoc) "book.epub").map
        (Except.map (fun b => b.chapters.map
          (fun c => (jsIncludes c.content "href=\"javascript:alert(1)\"",
            jsIncludes c.content "<script")))) =
      some (.ok [(true, false)]) := by decide

/-! ## C3/C6 counterexamples -/

/-- C3 counterexample: an unresolvable `<img src="missing.png">` is left
as an archive-relative path in the stored content — neither a `data:` URI
nor an absolute http(s) URL. -/
theorem c3_counterexample_relative_ref_remains :
    (parseEpub 1 (oneChapterZip missingImgDoc) "book.epub").map
        (Except.map (fun b => b.chapters.map (·.content))) =
      some (.ok ["<img src=\"missing.png\">"]) ∧
    jsStartsWith "missing.png" "data:" = false ∧
    isHttpUrl "missing.png" = false := by
  exact ⟨by decide, by decide, by decide⟩

/-- C6 counterexample: in `srcset="a.png 1x, missing.png 2x"` with only
`a.png` present in the archive, the unresolvable entry is dropped from
the stored srcset rather than left as-is. -/
theorem c6_counterexample_srcset_entry_dropped :
    (parseEpub 1 srcsetZip "book.epub").map
        (Except.map (fun b => b.chapters.map (·.content))) =
      some (.ok ["<img srcset=\"data:image/png;base64,AQID 1x\">"]) ∧
    jsIncludes "<img srcset=\"data:image/png;base64,AQID 1x\">" "missing.png" = false := by
  exact ⟨by decide, by decide⟩

/-! ## Attribute-map and data-URI lemmas -/

theorem attrGet_map_replace (a : List (String × String)) (n v : String) :
    attrGet (a.map (fun p => if p.1 = n then (p.1, v) else p)) n =
      if (a.find? (fun p => p.1 = n)).isSome then some v else none := by
  induction a with
  | nil => rfl
  | cons p ps ih =>
    by_cases hp : p.1 = n
    · rw [List.map_cons, if_pos hp]
      simp only [attrGet]
      rw [List.find?_cons_of_pos _ (by simpa using hp),
        List.find?_cons_of_pos _ (by simpa using hp)]
      simp
    · rw [List.map_cons, if_neg hp]
      simp only [attrGet] at ih ⊢
      rw [List.find?_cons_of_neg _ (by simpa using hp),
        List.find?_cons_of_neg _ (by simpa using hp)]
      exact ih

theorem attrGet_map_replace_ne (a : List (String × String)) (n v m : String)
    (hmn : m ≠ n) :
    attrGet (a.map (fun p => if p.1 = n then (p.1, v) else p)) m = attrGet a m := by
  induction a with
  | nil => rfl
  | cons p ps ih =>
    by_cases hp : p.1 = n
    · have hpm : ¬p.1 = m := fun e => hmn (e ▸ hp)
      rw [List.map_cons, if_pos hp]
      simp only [attrGet] at ih ⊢
      rw [List.find?_cons_of_neg _ (by simpa using hpm),
        List.find?_cons_of_neg _ (by simpa using hpm)]
      exact ih
    · rw [List.map_cons, if_neg hp]
      by_cases hm : p.1 = m
      · simp only [attrGet]
        rw [List.find?_cons_of_pos _ (by simpa using hm),
          List.find?_cons_of_pos _ (by simpa using hm)]
      · simp only [attrGet] at ih ⊢
        rw [List.find?_cons_of_neg _ (by simpa using hm),
          List.find?_cons_of_neg _ (by simpa using hm)]
        exact ih

theorem attrGet_attrSet_same (a : List (String × String)) (n v : String) :
    attrGet (attrSet a n v) n = some v := by
  unfold attrSet
  by_cases h : (a.find? (fun p => p.1 = n)).isSome
  · rw [if_pos h, attrGet_map_replace, if_pos h]
  · rw [if_neg h]
    have hnone : a.find? (fun p => decide (p.1 = n)) = none :=
      Option.not_isSome_iff_eq_none.mp h
    simp only [attrGet, List.find?_append, hnone, Option.none_or]
    rw [List.find?_cons_of_pos _ (by simp)]
    rfl

theorem attrGet_attrSet_ne (a : List (String × String)) (n v m : String)
    (hmn : m ≠ n) : attrGet (attrSet a n v) m = attrGet a m := by
  unfold attrSet
  by_cases h : (a.find? (fun p => p.1 = n)).isSome
  · rw [if_pos h, attrGet_map_replace_ne _ _ _ _ hmn]
  · rw [if_neg h]
    simp only [attrGet, List.find?_append]
    rw [List.find?_cons_of_neg _ (by simpa using fun e => hmn e.symm)]
    simp

theorem jsStartsWith_append (p s : String) : jsStartsWith (p ++ s) p = true := by
  unfold jsStartsWith
  rw [strDataAppend]
  exact List.isPrefixOf_iff_prefix.mpr (List.prefix_append _ _)

theorem strAppend_assoc (a b c : String) : a ++ b ++ c = a ++ (b ++ c) := by
  apply String.ext
  rw [strDataAppend, strDataAppend, strDataAppend, strDataAppend]
  exact List.append_assoc _ _ _

/-- Every data URI built by `getResourceDataUri` starts with `data:`. -/
theorem getResourceDataUri_data_head (z : Zip)
    (mhm : List (String × ManifestItemE)) (baseDir p u : String)
    (h : getResourceDataUri z mhm baseDir p = some u) :
    jsStartsWith u "data:" = true := by
  unfold getResourceDataUri at h
  simp only [] at h
  split at h
  · cases h
  · next foundPath file =>
    injection h with h
    rw [← h, strAppend_assoc, strAppend_assoc]
    exact jsStartsWith_append "data:" _

/-- `imgSrcLookup` only ever returns `getResourceDataUri` outputs. -/
theorem imgSrcLookup_data_head (z : Zip) (mhm : List (String × ManifestItemE))
    (baseDir htmlDir src u : String)
    (h : imgSrcLookup z mhm baseDir htmlDir src = some u) :
    jsStartsWith u "data:" = true := by
  unfold imgSrcLookup at h
  simp only [] at h
  split at h
  · next d hd =>
    injection h with h
    exact h ▸ getResourceDataUri_data_head _ _ _ _ _ hd
  · next hd =>
    split at h
    · next pr hpr =>
      split at h
      · exact getResourceDataUri_data_head _ _ _ _ _ h
      · cases h
    · cases h

/-- Every substitution the `url(...)` loop performs inserts
`url(` + a `data:` URI + `)`. -/
theorem urlReplacementFor_spec (z : Zip) (mhm : List (String × ManifestItemE))
    (baseDir cssDir : String) (m : UrlMatch) (r : String)
    (h : urlReplacementFor z mhm baseDir cssDir m = some r) :
    ∃ d, getResourceDataUri z mhm baseDir
        (resolveZipPath cssDir (stripQuotes (jsTrim m.inner))) = some d ∧
      r = "url(" ++ d ++ ")" ∧ jsStartsWith d "data:" = true := by
  unfold urlReplacementFor at h
  simp only [] at h
  split at h
  · cases h
  · cases hd : getResourceDataUri z mhm baseDir
        (resolveZipPath cssDir (stripQuotes (jsTrim m.inner))) with
    | none =>
      rw [hd] at h
      cases h
    | some d =>
      rw [hd] at h
      injection h with h
      exact ⟨d, rfl, h.symm, getResourceDataUri_data_head _ _ _ _ _ hd⟩

/-! ## C3: resource references in rewritten content -/

/-- The `src` reference of an element's attribute list. -/
def srcRefOf (a : List (String × String)) : List String :=
  match attrGet a "src" with
  | some s => [s]
  | none => []

/-- The `href`/`xlink:href` references of an element's attribute list. -/
def hrefRefsOf (a : List (String × String)) : List String :=
  (match attrGet a "href" with
    | some s => [s]
    | none => []) ++
  (match attrGet a "xlink:href" with
    | some s => [s]
    | none => [])

/-- The whole-attribute resource references the rewrite passes act on:
`img src` and SVG `image` `href`/`xlink:href`. -/
def nodeAttrRefs (t : String) (a : List (String × String)) : List String :=
  (if t = "img" then srcRefOf a else []) ++
    (if t = "image" then hrefRefsOf a else [])

mutual

def collectRefsN : HNode → List String
  | .text _ => []
  | .elem t a cs => nodeAttrRefs t a ++ collectRefsF cs

def collectRefsF : List HNode → List String
  | [] => []
  | n :: ns => collectRefsN n ++ collectRefsF ns

end

def isDataOrHttp (r : String) : Prop :=
  jsStartsWith r "data:" = true ∨ isHttpUrl r = true

mutual

theorem collectRefs_attrPassN
    (f : String → List (String × String) → List (String × String))
    (hf : ∀ t a r, r ∈ nodeAttrRefs t (f t a) → isDataOrHttp r ∨ r ∈ nodeAttrRefs t a) :
    ∀ (n : HNode) (r : String),
      r ∈ collectRefsN (attrPassN f n) → isDataOrHttp r ∨ r ∈ collectRefsN n
  | .text s => by
    intro r hr
    simp [attrPassN, collectRefsN] at hr
  | .elem t a cs => by
    intro r hr
    simp only [attrPassN, collectRefsN, List.mem_append] at hr ⊢
    rcases hr with h | h
    · rcases hf t a r h with hp | hm
      · exact Or.inl hp
      · exact Or.inr (Or.inl hm)
    · rcases collectRefs_attrPassF f hf cs r h with hp | hm
      · exact Or.inl hp
      · exact Or.inr (Or.inr hm)

theorem collectRefs_attrPassF
    (f : String → List (String × String) → List (String × String))
    (hf : ∀ t a r, r ∈ nodeAttrRefs t (f t a) → isDataOrHttp r ∨ r ∈ nodeAttrRefs t a) :
    ∀ (l : List HNode) (r : String),
      r ∈ collectRefsF (attrPassF f l) → isDataOrHttp r ∨ r ∈ collectRefsF l
  | [] => by
    intro r hr
    simp [attrPassF, collectRefsF] at hr
  | n :: ns => by
    intro r hr
    simp only [attrPassF, collectRefsF, List.mem_append] at hr ⊢
    rcases hr with h | h
    · rcases collectRefs_attrPassN f hf n r h with hp | hm
      · exact Or.inl hp
      · exact Or.inr (Or.inl hm)
    · rcases collectRefs_attrPassF f hf ns r h with hp | hm
      · exact Or.inl hp
      · exact Or.inr (Or.inr hm)

end

theorem nodeAttrRefs_img (a : List (String × String)) :
    nodeAttrRefs "img" a = srcRefOf a := by
  simp [nodeAttrRefs]

theorem nodeAttrRefs_image (a : List (String × String)) :
    nodeAttrRefs "image" a = hrefRefsOf a := by
  simp [nodeAttrRefs]

theorem imgSrcsetStage_src (z : Zip) (mhm : List (String × ManifestItemE))
    (baseDir htmlDir : String) (a : List (String × String)) :
    attrGet (imgSrcsetStage z mhm baseDir htmlDir a) "src" = attrGet a "src" := by
  unfold imgSrcsetStage
  simp only []
  split
  · rfl
  · split
    · rfl
    · split
      · rfl
      · split
        · exact attrGet_attrSet_ne _ _ _ _ (by decide)
        · rfl

theorem imgSrcStage_srcset (z : Zip) (mhm : List (String × ManifestItemE))
    (baseDir htmlDir : String) (a : List (String × String)) :
    attrGet (imgSrcStage z mhm baseDir htmlDir a) "srcset" = attrGet a "srcset" := by
  unfold imgSrcStage
  split
  · rfl
  · split
    · rfl
    · split
      · exact attrGet_attrSet_ne _ _ _ _ (by decide)
      · rfl

theorem imgSrcStage_srcRef (z : Zip) (mhm : List (String × ManifestItemE))
    (baseDir htmlDir : String) (a : List (String × String)) (r : String)
    (hr : r ∈ srcRefOf (imgSrcStage z mhm baseDir htmlDir a)) :
    isDataOrHttp r ∨ r ∈ srcRefOf a := by
  unfold imgSrcStage at hr
  split at hr
  · exact Or.inr hr
  · split at hr
    · exact Or.inr hr
    · split at hr
      · next dataUri hd =>
        unfold srcRefOf at hr
        rw [attrGet_attrSet_same] at hr
        simp only [List.mem_singleton] at hr
        subst hr
        exact Or.inl (Or.inl (imgSrcLookup_data_head _ _ _ _ _ _ hd))
      · exact Or.inr hr

theorem imgAttrRewrite_refs (z : Zip) (mhm : List (String × ManifestItemE))
    (baseDir htmlDir : String) :
    ∀ (t : String) (a : List (String × String)) (r : String),
      r ∈ nodeAttrRefs t (imgAttrRewrite z mhm baseDir htmlDir t a) →
      isDataOrHttp r ∨ r ∈ nodeAttrRefs t a := by
  intro t a r hr
  unfold imgAttrRewrite at hr
  split at hr
  · exact Or.inr hr
  · next ht =>
    have ht' : t = "img" := not_not.mp ht
    subst ht'
    rw [nodeAttrRefs_img] at hr ⊢
    have hsrc : srcRefOf (imgSrcsetStage z mhm baseDir htmlDir
        (imgSrcStage z mhm baseDir htmlDir a)) =
        srcRefOf (imgSrcStage z mhm baseDir htmlDir a) := by
      unfold srcRefOf
      rw [imgSrcsetStage_src]
    rw [hsrc] at hr
    exact imgSrcStage_srcRef _ _ _ _ _ _ hr

theorem hrefRefsOf_mem (a : List (String × String)) (r : String)
    (hr : r ∈ hrefRefsOf a) :
    attrGet a "href" = some r ∨ attrGet a "xlink:href" = some r := by
  unfold hrefRefsOf at hr
  rcases List.mem_append.mp hr with h | h
  · left
    split at h
    · simp only [List.mem_singleton] at h
      subst h
      assumption
    · simp at h
  · right
    split at h
    · simp only [List.mem_singleton] at h
      subst h
      assumption
    · simp at h

theorem mem_hrefRefsOf_href (a : List (String × String)) (r : String)
    (h : attrGet a "href" = some r) : r ∈ hrefRefsOf a := by
  unfold hrefRefsOf
  rw [h]
  simp

theorem mem_hrefRefsOf_xlink (a : List (String × String)) (r : String)
    (h : attrGet a "xlink:href" = some r) : r ∈ hrefRefsOf a := by
  unfold hrefRefsOf
  rw [h]
  simp

theorem svgSetHref_href (d : String) (a : List (String × String)) :
    attrGet (svgSetHref d a) "href" = some d ∨
      attrGet (svgSetHref d a) "href" = attrGet a "href" := by
  unfold svgSetHref
  split
  · split
    · rw [attrGet_attrSet_same]
      exact Or.inl rfl
    · exact Or.inr rfl
  · exact Or.inr rfl

theorem svgSetHref_xlink (d : String) (a : List (String × String)) :
    attrGet (svgSetHref d a) "xlink:href" = attrGet a "xlink:href" := by
  unfold svgSetHref
  split
  · split
    · exact attrGet_attrSet_ne _ _ _ _ (by decide)
    · rfl
  · rfl

theorem svgSetXlink_href (d : String) (b : List (String × String)) :
    attrGet (svgSetXlink d b) "href" = attrGet b "href" := by
  unfold svgSetXlink
  split
  · split
    · exact attrGet_attrSet_ne _ _ _ _ (by decide)
    · rfl
  · rfl

theorem svgSetXlink_xlink (d : String) (b : List (String × String)) :
    attrGet (svgSetXlink d b) "xlink:href" = some d ∨
      attrGet (svgSetXlink d b) "xlink:href" = attrGet b "xlink:href" := by
  unfold svgSetXlink
  split
  · split
    · rw [attrGet_attrSet_same]
      exact Or.inl rfl
    · exact Or.inr rfl
  · exact Or.inr rfl

theorem svgImageAttrRewrite_refs (z : Zip) (mhm : List (String × ManifestItemE))
    (baseDir htmlDir : String) :
    ∀ (t : String) (a : List (String × String)) (r : String),
      r ∈ nodeAttrRefs t (svgImageAttrRewrite z mhm baseDir htmlDir t a) →
      isDataOrHttp r ∨ r ∈ nodeAttrRefs t a := by
  intro t a r hr
  unfold svgImageAttrRewrite at hr
  split at hr
  · exact Or.inr hr
  · next ht =>
    have ht' : t = "image" := not_not.mp ht
    subst ht'
    rw [nodeAttrRefs_image] at hr ⊢
    split at hr
    · exact Or.inr hr
    · next href hh =>
      split at hr
      · exact Or.inr hr
      · simp only [] at hr
        split at hr
        · exact Or.inr hr
        · next dataUri hd =>
          have hdata : jsStartsWith dataUri "data:" = true :=
            getResourceDataUri_data_head _ _ _ _ _ hd
          have hresh : attrGet (svgSetXlink dataUri (svgSetHref dataUri a))
                "href" = some dataUri ∨
              attrGet (svgSetXlink dataUri (svgSetHref dataUri a)) "href" =
                attrGet a "href" := by
            rw [svgSetXlink_href]
            exact svgSetHref_href _ _
          have hresx : attrGet (svgSetXlink dataUri (svgSetHref dataUri a))
                "xlink:href" = some dataUri ∨
              attrGet (svgSetXlink dataUri (svgSetHref dataUri a)) "xlink:href" =
                attrGet a "xlink:href" := by
            rcases svgSetXlink_xlink dataUri (svgSetHref dataUri a) with h | h
            · exact Or.inl h
            · rw [h, svgSetHref_xlink]
              exact Or.inr rfl
          rcases hrefRefsOf_mem _ _ hr with hcase | hcase
          · rcases hresh with he | he
            · rw [he] at hcase
              injection hcase with hc
              subst hc
              exact Or.inl (Or.inl hdata)
            · rw [he] at hcase
              exact Or.inr (mem_hrefRefsOf_href _ _ hcase)
          · rcases hresx with he | he
            · rw [he] at hcase
              injection hcase with hc
              subst hc
              exact Or.inl (Or.inl hdata)
            · rw [he] at hcase
              exact Or.inr (mem_hrefRefsOf_xlink _ _ hcase)

theorem nodeAttrRefs_attrSet_other (t : String) (a : List (String × String))
    (n v : String) (h1 : n ≠ "src") (h2 : n ≠ "href") (h3 : n ≠ "xlink:href") :
    nodeAttrRefs t (attrSet a n v) = nodeAttrRefs t a := by
  unfold nodeAttrRefs srcRefOf hrefRefsOf
  rw [attrGet_attrSet_ne a n v "src" (Ne.symm h1),
    attrGet_attrSet_ne a n v "href" (Ne.symm h2),
    attrGet_attrSet_ne a n v "xlink:href" (Ne.symm h3)]

theorem styleAttrRewrite_refs (z : Zip) (mhm : List (String × ManifestItemE))
    (baseDir htmlDir : String) :
    ∀ (t : String) (a : List (String × String)) (r : String),
      r ∈ nodeAttrRefs t (styleAttrRewrite z mhm baseDir htmlDir t a) →
      isDataOrHttp r ∨ r ∈ nodeAttrRefs t a := by
  intro t a r hr
  unfold styleAttrRewrite at hr
  split at hr
  · exact Or.inr hr
  · split at hr
    · exact Or.inr hr
    · split at hr
      · exact Or.inr hr
      · rw [nodeAttrRefs_attrSet_other _ _ _ _ (by decide) (by decide) (by decide)] at hr
        exact Or.inr hr

theorem srcsetTransform_aux (z : Zip) (mhm : List (String × ManifestItemE))
    (baseDir htmlDir : String) :
    ∀ (l : List String) (acc : List String),
      l.foldl (srcsetStep z mhm baseDir htmlDir) acc =
        acc ++ l.filterMap (srcsetEntryTransform z mhm baseDir htmlDir) := by
  intro l
  induction l with
  | nil =>
    intro acc
    simp
  | cons e es ih =>
    intro acc
    simp only [List.foldl_cons, List.filterMap_cons]
    cases hf : srcsetEntryTransform z mhm baseDir htmlDir e with
    | none =>
      rw [show srcsetStep z mhm baseDir htmlDir acc e = acc by
        unfold srcsetStep; rw [hf], ih]
    | some x =>
      rw [show srcsetStep z mhm baseDir htmlDir acc e = acc ++ [x] by
        unfold srcsetStep; rw [hf], ih]
      simp

theorem srcsetTransform_eq_filterMap (z : Zip) (mhm : List (String × ManifestItemE))
    (baseDir htmlDir : String) (entries : List String) :
    srcsetTransform z mhm baseDir htmlDir entries =
      entries.filterMap (srcsetEntryTransform z mhm baseDir htmlDir) := by
  unfold srcsetTransform
  simpa using srcsetTransform_aux z mhm baseDir htmlDir entries []

theorem takeWhile_isPrefixOf (pred : Char → Bool) :
    ∀ (p l : List Char), p.isPrefixOf l = true → (∀ c ∈ p, pred c = true) →
      p.isPrefixOf (l.takeWhile pred) = true := by
  intro p
  induction p with
  | nil =>
    intro l _ _
    simp [List.isPrefixOf]
  | cons c cs ih =>
    intro l hpre hall
    cases l with
    | nil => simp [List.isPrefixOf] at hpre
    | cons d ds =>
      simp only [List.isPrefixOf, Bool.and_eq_true, beq_iff_eq] at hpre
      rcases hpre with ⟨hcd, hrest⟩
      subst hcd
      rw [List.takeWhile_cons, if_pos (hall c (List.mem_cons_self _ _))]
      simp only [List.isPrefixOf, Bool.and_eq_true]
      exact ⟨by simp, ih ds hrest (fun e he => hall e (List.mem_cons_of_mem _ he))⟩

theorem jsStartsWith_splitWs2_data (d : String) (descr : Option String)
    (h : jsStartsWith d "data:" = true) :
    jsStartsWith (splitWs2 (joinUriDescr d descr)).1 "data:" = true := by
  have hall : ∀ c ∈ "data:".data, (fun c => !c.isWhitespace) c = true := by decide
  have step : ∀ s : String, jsStartsWith s "data:" = true →
      jsStartsWith (splitWs2 s).1 "data:" = true := by
    intro s hs
    unfold splitWs2
    simp only []
    unfold jsStartsWith at hs ⊢
    exact takeWhile_isPrefixOf _ _ _ hs hall
  cases descr with
  | none => exact step d h
  | some dd =>
    by_cases hdd : dd = ""
    · have : joinUriDescr d (some dd) = d := by
        unfold joinUriDescr
        simp [hdd]
      rw [this]
      exact step d h
    · have : joinUriDescr d (some dd) = d ++ " " ++ dd := by
        unfold joinUriDescr
        simp [hdd]
      rw [this]
      apply step
      unfold jsStartsWith at h ⊢
      rw [strDataAppend, strDataAppend]
      have hpre : "data:".data <+: d.data := List.isPrefixOf_iff_prefix.mp h
      exact List.isPrefixOf_iff_prefix.mpr
        (hpre.trans ((List.prefix_append d.data " ".data).trans
          (List.prefix_append (d.data ++ " ".data) dd.data)))

theorem srcsetEntryTransform_spec (z : Zip) (mhm : List (String × ManifestItemE))
    (baseDir htmlDir : String) (entry x : String)
    (h : srcsetEntryTransform z mhm baseDir htmlDir entry = some x) :
    x = entry ∨ jsStartsWith (splitWs2 x).1 "data:" = true := by
  unfold srcsetEntryTransform at h
  simp only [] at h
  split at h
  · cases h
  · split at h
    · injection h with h
      exact Or.inl h.symm
    · cases hd : getResourceDataUri z mhm baseDir
          (resolveZipPath htmlDir (splitWs2 entry).1) with
      | none =>
        rw [hd] at h
        cases h
      | some d =>
        rw [hd] at h
        injection h with h
        subst h
        exact Or.inr (jsStartsWith_splitWs2_data _ _
          (getResourceDataUri_data_head _ _ _ _ _ hd))

/-- C3, as amended: in rewritten chapter content every `img src` and SVG
`image` `href`/`xlink:href` reference is a `data:` URI, an absolute
http(s) URL, or textually unchanged from the source document
(unresolvable references stay archive-relative); every surviving srcset
entry is an original entry or one whose URL field starts with `data:`;
and every value the resolution and `url(...)` substitution machinery
inserts is a `data:` URI. -/
theorem c3_refs_data_http_or_unchanged :
    (∀ (z : Zip) (mhm : List (String × ManifestItemE)) (baseDir htmlDir : String)
        (l : List HNode) (r : String),
        r ∈ collectRefsF (attrPassF (styleAttrRewrite z mhm baseDir htmlDir)
          (attrPassF (svgImageAttrRewrite z mhm baseDir htmlDir)
            (attrPassF (imgAttrRewrite z mhm baseDir htmlDir) l))) →
        isDataOrHttp r ∨ r ∈ collectRefsF l) ∧
    (∀ (z : Zip) (mhm : List (String × ManifestItemE)) (baseDir htmlDir : String)
        (entries : List String) (x : String),
        x ∈ srcsetTransform z mhm baseDir htmlDir entries →
        x ∈ entries ∨ jsStartsWith (splitWs2 x).1 "data:" = true) ∧
    (∀ (z : Zip) (mhm : List (String × ManifestItemE)) (baseDir p u : String),
        getResourceDataUri z mhm baseDir p = some u →
        jsStartsWith u "data:" = true) ∧
    (∀ (z : Zip) (mhm : List (String × ManifestItemE)) (baseDir cssDir : String)
        (m : UrlMatch) (r : String),
        urlReplacementFor z mhm baseDir cssDir m = some r →
        ∃ d, r = "url(" ++ d ++ ")" ∧ jsStartsWith d "data:" = true) := by
  refine ⟨?_, ?_, ?_, ?_⟩
  · intro z mhm baseDir htmlDir l r hr
    rcases collectRefs_attrPassF _ (styleAttrRewrite_refs z mhm baseDir htmlDir)
        _ r hr with hp | h1
    · exact Or.inl hp
    rcases collectRefs_attrPassF _ (svgImageAttrRewrite_refs z mhm baseDir htmlDir)
        _ r h1 with hp | h2
    · exact Or.inl hp
    rcases collectRefs_attrPassF _ (imgAttrRewrite_refs z mhm baseDir htmlDir)
        _ r h2 with hp | h3
    · exact Or.inl hp
    exact Or.inr h3
  · intro z mhm baseDir htmlDir entries x hx
    rw [srcsetTransform_eq_filterMap] at hx
    rcases List.mem_filterMap.mp hx with ⟨e, he, hfe⟩
    rcases srcsetEntryTransform_spec _ _ _ _ _ _ hfe with h | h
    · exact Or.inl (h ▸ he)
    · exact Or.inr h
  · intro z mhm baseDir p u h
    exact getResourceDataUri_data_head _ _ _ _ _ h
  · intro z mhm baseDir cssDir m r h
    rcases urlReplacementFor_spec _ _ _ _ _ _ h with ⟨d, _, h2, h3⟩
    exact ⟨d, h2, h3⟩

/-- Witness for `c3_refs_data_http_or_unchanged`: the conjuncts applied
at the missing-image chapter body. -/
theorem c3_refs_data_http_or_unchanged_witness :
    isDataOrHttp "missing.png" ∨
      "missing.png" ∈ collectRefsF missingImgDoc.bodyNodes :=
  c3_refs_data_http_or_unchanged.1
    (oneChapterZip missingImgDoc)
    (mkManifestHrefMap (normalizeArray oneChapterOpf.manifestItems) "OEBPS")
    "OEBPS" "OEBPS" missingImgDoc.bodyNodes "missing.png" (by decide)

/-! ## C6: what happens to unresolvable references -/

theorem imgSrcStage_miss (z : Zip) (mhm : List (String × ManifestItemE))
    (baseDir htmlDir : String) (a : List (String × String)) (src : String)
    (ha : attrGet a "src" = some src)
    (hguard : ¬(src = "" ∨ jsStartsWith src "data:" = true ∨ isHttpUrl src = true))
    (hmiss : imgSrcLookup z mhm baseDir htmlDir src = none) :
    imgSrcStage z mhm baseDir htmlDir a = a := by
  unfold imgSrcStage
  rw [ha]
  simp only [hmiss]
  rw [if_neg hguard]

/-- C6, as amended: an unresolvable `img src` or SVG `image` href is left
unchanged (the miss is non-fatal), and every `url(...)` occurrence whose
lookup misses keeps its original text; but srcset entries behave
differently — the loop keeps only transformable entries, so an
unresolvable relative entry is dropped whenever at least one other entry
of the same srcset was kept or rewritten, and the whole `srcset`
attribute is left unchanged only when no entry survived. -/
theorem c6_unresolvable_left_as_is :
    (∀ (z : Zip) (mhm : List (String × ManifestItemE)) (baseDir htmlDir : String)
        (a : List (String × String)) (src : String),
        attrGet a "src" = some src →
        ¬(src = "" ∨ jsStartsWith src "data:" = true ∨ isHttpUrl src = true) →
        imgSrcLookup z mhm baseDir htmlDir src = none →
        attrGet (imgAttrRewrite z mhm baseDir htmlDir "img" a) "src" = some src) ∧
    (∀ (z : Zip) (mhm : List (String × ManifestItemE)) (baseDir htmlDir : String)
        (a : List (String × String)) (href : String),
        svgHrefOf a = some href →
        ¬(href = "" ∨ jsStartsWith href "data:" = true ∨ isHttpUrl href = true) →
        getResourceDataUri z mhm baseDir (resolveZipPath htmlDir href) = none →
        svgImageAttrRewrite z mhm baseDir htmlDir "image" a = a) ∧
    (∀ (z : Zip) (mhm : List (String × ManifestItemE)) (baseDir cssDir s : String),
        (∀ m ∈ urlMatches s, urlReplacementFor z mhm baseDir cssDir m = none) →
        applyUrlSubstitutions z mhm baseDir cssDir s = s) ∧
    (∀ (z : Zip) (mhm : List (String × ManifestItemE)) (baseDir htmlDir : String)
        (entries : List String),
        srcsetTransform z mhm baseDir htmlDir entries =
          entries.filterMap (srcsetEntryTransform z mhm baseDir htmlDir)) ∧
    (∀ (z : Zip) (mhm : List (String × ManifestItemE)) (baseDir htmlDir : String)
        (entry : String),
        (splitWs2 entry).1 ≠ "" →
        ¬(jsStartsWith (splitWs2 entry).1 "data:" = true ∨
          isHttpUrl (splitWs2 entry).1 = true) →
        getResourceDataUri z mhm baseDir
          (resolveZipPath htmlDir (splitWs2 entry).1) = none →
        srcsetEntryTransform z mhm baseDir htmlDir entry = none) ∧
    (∀ (z : Zip) (mhm : List (String × ManifestItemE)) (baseDir htmlDir : String)
        (a : List (String × String)) (srcset : String),
        attrGet a "srcset" = some srcset →
        srcsetTransform z mhm baseDir htmlDir (srcsetEntriesOf srcset) = [] →
        attrGet (imgSrcsetStage z mhm baseDir htmlDir a) "srcset" = some srcset) := by
  refine ⟨?_, ?_, ?_, ?_, ?_, ?_⟩
  · intro z mhm baseDir htmlDir a src ha hguard hmiss
    unfold imgAttrRewrite
    rw [if_neg (by simp), imgSrcStage_miss z mhm baseDir htmlDir a src ha hguard hmiss,
      imgSrcsetStage_src, ha]
  · intro z mhm baseDir htmlDir a href hh hguard hmiss
    unfold svgImageAttrRewrite
    rw [if_neg (by simp), hh]
    simp only [hmiss]
    rw [if_neg hguard]
  · intro z mhm baseDir cssDir s hall
    unfold applyUrlSubstitutions
    have aux : ∀ (l : List UrlMatch) (acc : String),
        (∀ m ∈ l, urlReplacementFor z mhm baseDir cssDir m = none) →
        l.foldl (urlSubstStep z mhm baseDir cssDir) acc = acc := by
      intro l
      induction l with
      | nil =>
        intro acc _
        rfl
      | cons m ms ih =>
        intro acc hl
        rw [List.foldl_cons,
          show urlSubstStep z mhm baseDir cssDir acc m = acc by
            unfold urlSubstStep
            rw [hl m (List.mem_cons_self _ _)]]
        exact ih acc (fun m' hm' => hl m' (List.mem_cons_of_mem _ hm'))
    exact aux _ s hall
  · intro z mhm baseDir htmlDir entries
    exact srcsetTransform_eq_filterMap z mhm baseDir htmlDir entries
  · intro z mhm baseDir htmlDir entry hne hguard hmiss
    unfold srcsetEntryTransform
    simp only []
    rw [if_neg hne, if_neg hguard, hmiss]
    rfl
  · intro z mhm baseDir htmlDir a srcset ha hempty
    unfold imgSrcsetStage
    rw [ha]
    simp only [hempty]
    by_cases hs : srcset = ""
    · rw [if_pos hs]
      exact ha
    · rw [if_neg hs]
      by_cases he : srcsetEntriesOf srcset = []
      · rw [if_pos he]
        exact ha
      · rw [if_neg he, if_neg (by simp)]
        exact ha

/-- Witness for `c6_unresolvable_left_as_is` at the missing-image body. -/
theorem c6_unresolvable_left_as_is_witness :
    attrGet (imgAttrRewrite (oneChapterZip missingImgDoc)
        (mkManifestHrefMap (normalizeArray oneChapterOpf.manifestItems) "OEBPS")
        "OEBPS" "OEBPS" "img" [("src", "missing.png")]) "src" =
      some "missing.png" :=
  c6_unresolvable_left_as_is.1 (oneChapterZip missingImgDoc)
    (mkManifestHrefMap (normalizeArray oneChapterOpf.manifestItems) "OEBPS")
    "OEBPS" "OEBPS" [("src", "missing.png")] "missing.png"
    (by decide) (by decide) (by decide)

/-! ## C8: cover resolution precedence and the base64 round trip -/

def coverOpfManifest : List ManifestItemE :=
  [{ idAttr := some "cov", hrefAttr := some "images/cover.jpg",
      mediaTypeAttr := some "image/jpeg", propertiesAttr := some "cover-image" }]

def coverZip : Zip :=
  [("OEBPS/images/cover.jpg", { byteContent := [255, 216, 255, 224] })]

/-- C8, as amended: the cover id is the `content` attribute of a
`name="cover"`/`property="cover"` meta tag, or — missing that — the text
of a metadata `cover` element (this extra source sits inside step (a),
ahead of the `cover-image` fallback); an id that resolves to a manifest
item wins, else the first item whose `properties` contains `cover-image`,
else the first item whose media type starts with `image/`.  For the
manifest `cover-image` item pointing at `images/cover.jpg` (media type
`image/jpeg`) the cover is `data:image/jpeg;base64,` + base64 of the
archived bytes, and decoding round-trips to exactly those bytes. -/
theorem c8_cover_resolution_amended :
    (∀ (mm : List MetaTagE) (md : OpfMetadataE) (manifest : List ManifestItemE)
        (cid : String) (item : ManifestItemE),
        coverIdOf mm md = some cid → cid ≠ "" →
        manifest.find? (fun (i : ManifestItemE) => i.idAttr = some cid) = some item →
        selectCoverItem mm md manifest = some item) ∧
    (∀ (mm : List MetaTagE) (md : OpfMetadataE) (manifest : List ManifestItemE)
        (item : ManifestItemE),
        (coverIdOf mm md = none ∨
          ∃ cid, coverIdOf mm md = some cid ∧
            (cid = "" ∨
              manifest.find? (fun (i : ManifestItemE) => i.idAttr = some cid) = none)) →
        manifest.find? isCoverImageProps = some item →
        selectCoverItem mm md manifest = some item) ∧
    (∀ (mm : List MetaTagE) (md : OpfMetadataE) (manifest : List ManifestItemE)
        (item : ManifestItemE),
        (coverIdOf mm md = none ∨
          ∃ cid, coverIdOf mm md = some cid ∧
            (cid = "" ∨
              manifest.find? (fun (i : ManifestItemE) => i.idAttr = some cid) = none)) →
        manifest.find? isCoverImageProps = none →
        manifest.find? isImageMediaType = some item →
        selectCoverItem mm md manifest = some item) ∧
    (computeCoverImage coverZip [] {} coverOpfManifest "OEBPS" =
        some ("data:image/jpeg;base64," ++ base64Encode [255, 216, 255, 224]) ∧
      base64Decode (base64Encode [255, 216, 255, 224]) =
        some [255, 216, 255, 224]) := by
  have firstNone : ∀ (mm : List MetaTagE) (md : OpfMetadataE)
      (manifest : List ManifestItemE),
      (coverIdOf mm md = none ∨
        ∃ cid, coverIdOf mm md = some cid ∧
          (cid = "" ∨
            manifest.find? (fun (i : ManifestItemE) => i.idAttr = some cid) = none)) →
      (coverIdOf mm md).bind (fun cid =>
        if cid ≠ "" then
          manifest.find? (fun (i : ManifestItemE) => i.idAttr = some cid)
        else none) = none := by
    intro mm md manifest h
    rcases h with h | ⟨cid, hcid, hrest⟩
    · rw [h]
      rfl
    · rw [hcid]
      simp only [Option.some_bind]
      rcases hrest with h | h
      · rw [if_neg (by simpa using h)]
      · rw [h]
        split <;> rfl
  refine ⟨?_, ?_, ?_, by decide, by decide⟩
  · intro mm md manifest cid item hcid hne hfind
    unfold selectCoverItem
    rw [hcid]
    simp only [Option.some_bind]
    rw [if_pos hne, hfind]
    rfl
  · intro mm md manifest item h hfind
    unfold selectCoverItem
    rw [firstNone mm md manifest h, hfind]
    rfl
  · intro mm md manifest item h hnone hfind
    unfold selectCoverItem
    rw [firstNone mm md manifest h, hnone, hfind]
    rfl

/-- Witness for `c8_cover_resolution_amended`: a meta cover tag whose id
resolves. -/
theorem c8_cover_resolution_amended_witness :
    selectCoverItem [{ nameAttr := some "Cover", contentAttr := some "cov" }] {}
        coverOpfManifest =
      some { idAttr := some "cov", hrefAttr := some "images/cover.jpg",
             mediaTypeAttr := some "image/jpeg",
             propertiesAttr := some "cover-image" } :=
  c8_cover_resolution_amended.1
    [{ nameAttr := some "Cover", contentAttr := some "cov" }] {} coverOpfManifest
    "cov" _ (by decide) (by decide) (by decide)

/-- C8 counterexample: with no meta cover tag, a metadata `cover` element
whose text resolves to a manifest item beats the `cover-image`-properties
item, although the claim's precedence (meta tag, else `cover-image`
properties, else first `image/*`) would pick the latter. -/
theorem c8_counterexample :
    selectCoverItem [] { coverVal := .str "imgX" }
        [{ idAttr := some "y", hrefAttr := some "images/other.png",
            mediaTypeAttr := some "image/png", propertiesAttr := some "cover-image" },
          { idAttr := some "imgX", hrefAttr := some "images/x.png",
            mediaTypeAttr := some "image/png" }] =
      some { idAttr := some "imgX", hrefAttr := some "images/x.png",
             mediaTypeAttr := some "image/png" } ∧
    (some { idAttr := some "imgX", hrefAttr := some "images/x.png",
            mediaTypeAttr := some "image/png" } : Option ManifestItemE) ≠
      some { idAttr := some "y", hrefAttr := some "images/other.png",
             mediaTypeAttr := some "image/png",
             propertiesAttr := some "cover-image" } := by
  exact ⟨by decide, by decide⟩

end WNReader
